import Mathlib

/-!
Verification of the servo-cam client's communication core against its
specification.  The Python sources under `core/` are embedded shallowly:
`core/utils.py` (`json_encode` / `json_decode` wrap Python's `json.dumps` /
`json.loads`), `core/sockets.py` (`Sockets.decode`, `Sockets.encode`,
`Sockets.send`, `Sockets.restart*`, `thread_connect`, `thread_data` socket
options), `core/handler.py` (`Handler.handle`, `handle_cmd`, `handle_self`),
`core/worker.py` (`Worker.socket_send`, `Worker.stop`, protocol constants) and
`core/video.py` (`VideoPublisher.publish`'s restart-flag consumption).

Strings are `List Char` (Python `str`), byte strings are `List Nat` with values
below 256 (Python `bytes`).  JSON values carry arbitrary-precision integers
(Python `int`); floating-point payloads are outside the model.
-/

set_option maxHeartbeats 1000000
set_option maxRecDepth 2000

abbrev Str := List Char

/-- The double-quote character (0x22). -/
def dq : Char := Char.ofNat 34

/-- The backslash character (0x5c). -/
def bsl : Char := Char.ofNat 92

/-- The opening curly bracket (0x7b). -/
def lcurly : Char := Char.ofNat 123

/-- The closing curly bracket (0x7d). -/
def rcurly : Char := Char.ofNat 125

/-- JSON whitespace, as accepted by Python's json scanner. -/
def isWs (c : Char) : Bool :=
  c.toNat = 32 || c.toNat = 9 || c.toNat = 10 || c.toNat = 13

/-- Skip leading whitespace (the scanner's `_w(s, idx).end()`). -/
def skipWs : Str → Str
  | [] => []
  | c :: cs => if isWs c then skipWs cs else c :: cs

/-- ASCII decimal digit test. -/
def isDigitCh (c : Char) : Bool := 48 ≤ c.toNat && c.toNat ≤ 57

/-- The decimal digit character for `n < 10`. -/
def digitChar (n : Nat) : Char := Char.ofNat (48 + n)

/-- The lowercase hexadecimal digit character for `n < 16` (as printed by
Python's `'%04x'` format used for `\uXXXX` escapes). -/
def hexDigitChar (n : Nat) : Char := if n < 10 then Char.ofNat (48 + n) else Char.ofNat (87 + n)

/-- Decimal digits of a natural number, most significant first (fuel-indexed so
that the definition is structural and kernel-reducible). -/
def natDigitsAux : Nat → Nat → Str
  | 0, _ => []
  | f + 1, n => if n < 10 then [digitChar n] else natDigitsAux f (n / 10) ++ [digitChar (n % 10)]

/-- Decimal rendering of a natural number, as produced by Python's `str`. -/
def natDigits (n : Nat) : Str := natDigitsAux (n + 1) n

/-- Decimal rendering of a Python `int` (`repr`, as embedded in `json.dumps`
output). -/
def intDigits (n : Int) : Str := if n < 0 then '-' :: natDigits n.natAbs else natDigits n.toNat

/-- JSON values as produced by Python's `json` module, restricted to the
message domain the client exchanges: `null`, booleans, arbitrary-precision
integers, text strings, arrays and objects.  (Floating-point numbers are not
modelled.) -/
inductive Json where
  | null
  | bool (b : Bool)
  | num (n : Int)
  | str (s : Str)
  | arr (xs : List Json)
  | obj (kvs : List (Str × Json))

/-- Four lowercase hex digits of `n < 0x10000` (Python's `'%04x' % n`). -/
def hex4 (n : Nat) : Str :=
  [hexDigitChar (n / 4096), hexDigitChar (n / 256 % 16), hexDigitChar (n / 16 % 16),
    hexDigitChar (n % 16)]

/-- Escape one character exactly as CPython's
`json.encoder.py_encode_basestring_ascii` does (`ensure_ascii=True`): the
shorthand escapes from `ESCAPE_DCT`, `\uXXXX` for other characters outside
`0x20..0x7e`, and surrogate pairs above `0xFFFF`. -/
def escChar (c : Char) : Str :=
  let v := c.toNat
  if v = 92 then [bsl, bsl]
  else if v = 34 then [bsl, dq]
  else if v = 8 then [bsl, 'b']
  else if v = 9 then [bsl, 't']
  else if v = 10 then [bsl, 'n']
  else if v = 12 then [bsl, 'f']
  else if v = 13 then [bsl, 'r']
  else if v < 32 then bsl :: 'u' :: hex4 v
  else if v < 127 then [c]
  else if v < 65536 then bsl :: 'u' :: hex4 v
  else
    (bsl :: 'u' :: hex4 (55296 + (v - 65536) / 1024)) ++
      (bsl :: 'u' :: hex4 (56320 + (v - 65536) % 1024))

/-- Escape every character of a string body. -/
def escList (s : Str) : Str := s.foldr (fun c acc => escChar c ++ acc) []

/-- A JSON string literal: `"` body `"`. -/
def dumpStr (s : Str) : Str := dq :: escList s ++ [dq]

mutual

/-- `json.dumps` with its defaults: `ensure_ascii=True`, item separator
`", "`, key separator `": "` (CPython's default `separators` when `indent` is
`None`). -/
def dumps : Json → Str
  | .null => "null".data
  | .bool true => "true".data
  | .bool false => "false".data
  | .num n => intDigits n
  | .str s => dumpStr s
  | .arr xs => '[' :: dumpsArr xs ++ [']']
  | .obj kvs => lcurly :: dumpsObj kvs ++ [rcurly]

/-- Array elements joined by `", "`. -/
def dumpsArr : List Json → Str
  | [] => []
  | [x] => dumps x
  | x :: y :: t => dumps x ++ ',' :: ' ' :: dumpsArr (y :: t)

/-- Object entries `"key": value` joined by `", "`. -/
def dumpsObj : List (Str × Json) → Str
  | [] => []
  | [(k, v)] => dumpStr k ++ ':' :: ' ' :: dumps v
  | (k, v) :: e :: t => dumpStr k ++ ':' :: ' ' :: dumps v ++ ',' :: ' ' :: dumpsObj (e :: t)

end

mutual

/-- Well-formedness of a value as it can arise from a Python object: every
object's keys are pairwise distinct (Python dicts cannot hold duplicates). -/
def jwf : Json → Bool
  | .null => true
  | .bool _ => true
  | .num _ => true
  | .str _ => true
  | .arr xs => jwfList xs
  | .obj kvs => jwfObj kvs

def jwfList : List Json → Bool
  | [] => true
  | x :: t => jwf x && jwfList t

def jwfObj : List (Str × Json) → Bool
  | [] => true
  | (k, v) :: t => (t.all fun e => decide (e.1 ≠ k)) && jwf v && jwfObj t

end

/-- Build a `Char` from a code point, failing on values outside Lean's scalar
range.  (CPython strings may additionally hold lone surrogates; such inputs
are outside this model and make the parser fail instead.) -/
def mkChar (n : Nat) : Option Char := if n.isValidChar then some (Char.ofNat n) else none

/-- Value of one hexadecimal digit character, as accepted after `\u`. -/
def hexDigitVal (c : Char) : Option Nat :=
  if 48 ≤ c.toNat ∧ c.toNat ≤ 57 then some (c.toNat - 48)
  else if 97 ≤ c.toNat ∧ c.toNat ≤ 102 then some (c.toNat - 87)
  else if 65 ≤ c.toNat ∧ c.toNat ≤ 70 then some (c.toNat - 55)
  else none

/-- Value of a four-hex-digit group. -/
def hex4val (a b c d : Char) : Option Nat :=
  match hexDigitVal a, hexDigitVal b, hexDigitVal c, hexDigitVal d with
  | some x, some y, some z, some w => some (x * 4096 + y * 256 + z * 16 + w)
  | _, _, _, _ => none

/-- Decode the escape group after one `\u`, following CPython's
`json.scanner` string scanning: four hex digits, with a high surrogate escape
completed by an immediately following low surrogate escape. -/
def scanHex : Str → Option (Char × Str)
  | h1 :: h2 :: h3 :: h4 :: cs3 =>
    match hex4val h1 h2 h3 h4 with
    | none => none
    | some n =>
      if 55296 ≤ n ∧ n < 56320 then
        match cs3 with
        | u1 :: u2 :: k1 :: k2 :: k3 :: k4 :: cs4 =>
          if u1.toNat = 92 ∧ u2.toNat = 117 then
            match hex4val k1 k2 k3 k4 with
            | some m =>
              if 56320 ≤ m ∧ m < 57344 then
                match mkChar (65536 + (n - 55296) * 1024 + (m - 56320)) with
                | some ch => some (ch, cs4)
                | none => none
              else none
            | none => none
          else none
        | _ => none
      else
        match mkChar n with
        | some ch => some (ch, cs3)
        | none => none
  | _ => none

/-- Decode one escape sequence after a backslash: the shorthand set of
`BACKSLASH` in CPython's json scanner, or a `\u` group via `scanHex`. -/
def scanEsc : Str → Option (Char × Str)
  | [] => none
  | e :: cs =>
    if e.toNat = 34 then some (dq, cs)
    else if e.toNat = 92 then some (bsl, cs)
    else if e.toNat = 47 then some ('/', cs)
    else if e.toNat = 98 then some (Char.ofNat 8, cs)
    else if e.toNat = 102 then some (Char.ofNat 12, cs)
    else if e.toNat = 110 then some (Char.ofNat 10, cs)
    else if e.toNat = 114 then some (Char.ofNat 13, cs)
    else if e.toNat = 116 then some (Char.ofNat 9, cs)
    else if e.toNat = 117 then scanHex cs
    else none

/-- Parse the body of a JSON string literal after its opening quote, in strict
mode: plain characters must be `≥ 0x20`, a backslash starts an escape.
Fuel-indexed (one unit per decoded character) to keep the recursion
structural. -/
def parseStr : Nat → Str → Option (Str × Str)
  | 0, _ => none
  | f + 1, cs =>
    match cs with
    | [] => none
    | c :: cs1 =>
      if c.toNat = 34 then some ([], cs1)
      else if c.toNat = 92 then
        match scanEsc cs1 with
        | none => none
        | some (ch, rest) => (parseStr f rest).map fun p => (ch :: p.1, p.2)
      else if c.toNat < 32 then none
      else (parseStr f cs1).map fun p => (c :: p.1, p.2)

/-- Accumulate leading decimal digits. -/
def readDigits : Str → Nat → Nat × Str
  | [], acc => (acc, [])
  | c :: cs, acc => if isDigitCh c then readDigits cs (acc * 10 + (c.toNat - 48)) else (acc, c :: cs)

/-- Parse an unsigned JSON integer at the head of the input: at least one
digit, no redundant leading zero, and not followed by `.`/`e`/`E` (a float
there is outside the model and makes the parse fail). -/
def parseNumTail (cs : Str) : Option (Nat × Str) :=
  match cs with
  | [] => none
  | c :: rest =>
    if isDigitCh c then
      if c.toNat = 48 ∧ (match rest with | d :: _ => isDigitCh d | [] => false : Bool) = true then
        none
      else
        match readDigits cs 0 with
        | (n, r) =>
          match r with
          | [] => some (n, [])
          | x :: _ => if x.toNat = 46 ∨ x.toNat = 101 ∨ x.toNat = 69 then none else some (n, r)
    else none

/-- Replace-or-append one key/value pair, as assignment into a Python dict:
an existing key keeps its position and takes the new value. -/
def insertPair : List (Str × Json) → Str × Json → List (Str × Json)
  | [], p => [p]
  | (k, v) :: t, p => if k = p.1 then (k, p.2) :: t else (k, v) :: insertPair t p

/-- `dict(pairs)`: fold the parsed pairs into a dict, later duplicates
overwriting earlier values in place. -/
def dedupPairs (ps : List (Str × Json)) : List (Str × Json) := ps.foldl insertPair []

/-- Match an exact literal tail (code points), returning the rest. -/
def litTail : List Nat → Str → Option Str
  | [], r => some r
  | p :: ps, c :: cs => if c.toNat = p then litTail ps cs else none
  | _ :: _, [] => none

/-- Does the input start with the given code point? -/
def headIsClose (n : Nat) : Str → Bool
  | [] => false
  | c :: _ => decide (c.toNat = n)

/-- The input without its first character. -/
def tailOf : Str → Str
  | [] => []
  | _ :: t => t

mutual

/-- Parse one JSON value at the head of the input (no leading whitespace),
following CPython's `json.scanner.py_make_scanner`.  `NaN`/`Infinity`
constants and floats are outside the model and fail.  Fuel-indexed to keep the
recursion structural; every recursive call spends one unit. -/
def parseVal : Nat → Str → Option (Json × Str)
  | 0, _ => none
  | f + 1, cs =>
    match cs with
    | [] => none
    | c :: r =>
      if c.toNat = 110 then (litTail [117, 108, 108] r).map fun r2 => (.null, r2)
      else if c.toNat = 116 then (litTail [114, 117, 101] r).map fun r2 => (.bool true, r2)
      else if c.toNat = 102 then
        (litTail [97, 108, 115, 101] r).map fun r2 => (.bool false, r2)
      else if c.toNat = 45 then (parseNumTail r).map fun p => (.num (-(p.1 : Int)), p.2)
      else if c.toNat = 34 then (parseStr f r).map fun p => (.str p.1, p.2)
      else if c.toNat = 91 then
        if headIsClose 93 (skipWs r) then some (.arr [], tailOf (skipWs r))
        else (parseArrTail f (skipWs r)).map fun p => (.arr p.1, p.2)
      else if c.toNat = 123 then
        if headIsClose 125 (skipWs r) then some (.obj [], tailOf (skipWs r))
        else (parseObjTail f (skipWs r)).map fun p => (.obj (dedupPairs p.1), p.2)
      else if isDigitCh c then (parseNumTail (c :: r)).map fun p => (.num (p.1 : Int), p.2)
      else none

/-- Parse the elements of a non-empty array up to and including `]`. -/
def parseArrTail : Nat → Str → Option (List Json × Str)
  | 0, _ => none
  | f + 1, cs =>
    (parseVal f cs).bind fun p =>
      if headIsClose 44 (skipWs p.2) then
        (parseArrTail f (skipWs (tailOf (skipWs p.2)))).map fun q => (p.1 :: q.1, q.2)
      else if headIsClose 93 (skipWs p.2) then some ([p.1], tailOf (skipWs p.2))
      else none

/-- Parse the entries of a non-empty object up to and including the closing
curly bracket, returning the raw pair list in document order. -/
def parseObjTail : Nat → Str → Option (List (Str × Json) × Str)
  | 0, _ => none
  | f + 1, cs =>
    match cs with
    | [] => none
    | c :: r =>
      if c.toNat = 34 then
        (parseStr f r).bind fun pk =>
          if headIsClose 58 (skipWs pk.2) then
            (parseVal f (skipWs (tailOf (skipWs pk.2)))).bind fun pv =>
              if headIsClose 44 (skipWs pv.2) then
                (parseObjTail f (skipWs (tailOf (skipWs pv.2)))).map fun q =>
                  ((pk.1, pv.1) :: q.1, q.2)
              else if headIsClose 125 (skipWs pv.2) then
                some ([(pk.1, pv.1)], tailOf (skipWs pv.2))
              else none
          else none
      else none

end

/-- `json.loads` on a text string: skip leading whitespace, parse one value,
require only whitespace after it (`Extra data` otherwise).  The fuel
`length + 1` is sufficient for every input the serializer produces. -/
def jsonLoads (s : Str) : Option Json :=
  match parseVal (s.length + 1) (skipWs s) with
  | some (v, r) => if skipWs r = [] then some v else none
  | none => none

/-- `core/utils.py json_decode`: `json.loads` under `try`, returning `None` on
any exception. -/
def json_decode (s : Str) : Option Json := jsonLoads s

/-- `core/utils.py json_encode`: `json.dumps(data)`. -/
def json_encode (m : Json) : Str := dumps m

theorem toNat_ofNat_valid {n : Nat} (h : n.isValidChar) : (Char.ofNat n).toNat = n := by
  unfold Char.ofNat
  split
  · rfl
  · exact absurd h (by assumption)

theorem mkChar_toNat (c : Char) : mkChar c.toNat = some c := by
  have h : c.toNat.isValidChar := c.valid
  unfold mkChar
  rw [if_pos h, Char.ofNat_toNat]

theorem digitChar_toNat {d : Nat} (h : d < 10) : (digitChar d).toNat = 48 + d := by
  unfold digitChar
  exact toNat_ofNat_valid (Or.inl (by omega))

theorem isDigitCh_digitChar {d : Nat} (h : d < 10) : isDigitCh (digitChar d) = true := by
  simp [isDigitCh, digitChar_toNat h]
  omega

theorem natDigitsAux_fuel : ∀ f g n, n < f → n < g → natDigitsAux f n = natDigitsAux g n := by
  intro f
  induction f with
  | zero => omega
  | succ f ih =>
    intro g n hf hg
    match g with
    | g + 1 =>
      show natDigitsAux (f + 1) n = natDigitsAux (g + 1) n
      unfold natDigitsAux
      by_cases h10 : n < 10
      · simp [h10]
      · simp only [if_neg h10]
        rw [ih g (n / 10) (by omega) (by omega)]

theorem natDigits_eq (n : Nat) :
    natDigits n = if n < 10 then [digitChar n] else natDigits (n / 10) ++ [digitChar (n % 10)] := by
  unfold natDigits
  conv_lhs => rw [natDigitsAux_fuel (n + 1) (n + 2) n (by omega) (by omega)]
  show (if n < 10 then [digitChar n] else natDigitsAux (n + 1) (n / 10) ++ [digitChar (n % 10)]) = _
  by_cases h10 : n < 10
  · simp [h10]
  · simp only [if_neg h10]
    rw [natDigitsAux_fuel (n + 1) (n / 10 + 1) (n / 10) (by omega) (by omega)]

theorem natDigits_all_digits (n : Nat) : ∀ c ∈ natDigits n, isDigitCh c = true := by
  induction n using Nat.strong_induction_on with
  | _ n ih =>
    rw [natDigits_eq]
    by_cases h10 : n < 10
    · simp only [if_pos h10, List.mem_singleton]
      rintro c rfl
      exact isDigitCh_digitChar h10
    · simp only [if_neg h10, List.mem_append, List.mem_singleton]
      rintro c (hc | rfl)
      · exact ih (n / 10) (by omega) c hc
      · exact isDigitCh_digitChar (by omega)

theorem natDigits_ne_nil (n : Nat) : natDigits n ≠ [] := by
  rw [natDigits_eq]
  by_cases h10 : n < 10 <;> simp [h10]

theorem natDigits_head_ne_zero : ∀ n, 1 ≤ n → ∀ c cs, natDigits n = c :: cs → c.toNat ≠ 48 := by
  intro n
  induction n using Nat.strong_induction_on with
  | _ n ih =>
    intro h1 c cs h
    rw [natDigits_eq] at h
    by_cases h10 : n < 10
    · rw [if_pos h10] at h
      obtain ⟨rfl, -⟩ := List.cons.inj h
      rw [digitChar_toNat h10]
      omega
    · rw [if_neg h10] at h
      match hh : natDigits (n / 10) with
      | [] => exact absurd hh (natDigits_ne_nil _)
      | d :: ds =>
        rw [hh] at h
        obtain ⟨rfl, -⟩ := List.cons.inj h
        exact ih (n / 10) (by omega) (by omega) d ds hh

theorem readDigits_natDigits : ∀ n acc rest,
    readDigits (natDigits n ++ rest) acc =
      readDigits rest (acc * 10 ^ (natDigits n).length + n) := by
  intro n
  induction n using Nat.strong_induction_on with
  | _ n ih =>
    intro acc rest
    rw [natDigits_eq]
    by_cases h10 : n < 10
    · simp only [if_pos h10, List.singleton_append, List.length_singleton, pow_one]
      simp only [readDigits, if_pos (isDigitCh_digitChar h10), digitChar_toNat h10]
      congr 1
      omega
    · simp only [if_neg h10, List.append_assoc, List.singleton_append, List.length_append,
        List.length_singleton]
      rw [ih (n / 10) (by omega)]
      have hm10 : n % 10 < 10 := by omega
      simp only [readDigits, if_pos (isDigitCh_digitChar hm10), digitChar_toNat hm10]
      congr 1
      have h48 : 48 + n % 10 - 48 = n % 10 := by omega
      rw [h48, pow_succ]
      have hdm : n / 10 * 10 + n % 10 = n := by omega
      set L := (natDigits (n / 10)).length
      calc (acc * 10 ^ L + n / 10) * 10 + n % 10
          = acc * (10 ^ L * 10) + (n / 10 * 10 + n % 10) := by ring
        _ = acc * (10 ^ L * 10) + n := by rw [hdm]

/-- The characters that may legally follow a serialized value inside a larger
document: an item separator or a closing bracket (or end of input). -/
def delimOk (r : Str) : Bool :=
  match r with
  | [] => true
  | c :: _ => c.toNat = 44 || c.toNat = 93 || c.toNat = 125

theorem delim_char_facts {c : Char}
    (h : (c.toNat = 44 || c.toNat = 93 || c.toNat = 125) = true) :
    isDigitCh c = false ∧ ¬(c.toNat = 46 ∨ c.toNat = 101 ∨ c.toNat = 69) ∧ isWs c = false := by
  simp only [Bool.or_eq_true, decide_eq_true_eq] at h
  refine ⟨?_, by omega, ?_⟩ <;> simp only [isDigitCh, isWs] <;>
    simp only [Bool.and_eq_false_iff, Bool.or_eq_false_iff, decide_eq_false_iff_not] <;> omega

theorem readDigits_stop {r : Str} (h : delimOk r = true) (m : Nat) : readDigits r m = (m, r) := by
  match r with
  | [] => rfl
  | c :: t =>
    have := (delim_char_facts (by simpa [delimOk] using h)).1
    simp [readDigits, this]

theorem parseNumTail_natDigits (n : Nat) (rest : Str) (hd : delimOk rest = true) :
    parseNumTail (natDigits n ++ rest) = some (n, rest) := by
  match hcons : natDigits n with
  | [] => exact absurd hcons (natDigits_ne_nil n)
  | c :: cs =>
    have hdig : isDigitCh c = true := by
      exact natDigits_all_digits n c (by rw [hcons]; exact List.mem_cons_self c cs)
    have hread : readDigits (c :: (cs ++ rest)) 0 = (n, rest) := by
      have h1 : c :: (cs ++ rest) = natDigits n ++ rest := by rw [hcons]; rfl
      rw [h1, readDigits_natDigits, Nat.zero_mul, Nat.zero_add, readDigits_stop hd]
    have hlz : (c.toNat = 48 ∧
        (match cs ++ rest with | d :: _ => isDigitCh d | [] => false : Bool) = true) → False := by
      rintro ⟨h48, hnext⟩
      by_cases h10 : n < 10
      · have : natDigits n = [digitChar n] := by rw [natDigits_eq, if_pos h10]
        rw [this] at hcons
        obtain ⟨-, rfl⟩ := List.cons.inj hcons
        simp only [List.nil_append] at hnext
        match rest, hd with
        | [], _ => simp at hnext
        | x :: t, hd =>
          have := (delim_char_facts (by simpa [delimOk] using hd)).1
          simp [this] at hnext
      · exact natDigits_head_ne_zero n (by omega) c cs hcons h48
    show parseNumTail (c :: (cs ++ rest)) = some (n, rest)
    simp only [parseNumTail, hdig, if_true]
    rw [if_neg hlz, hread]
    match rest, hd with
    | [], _ => rfl
    | x :: t, hd =>
      obtain ⟨-, h1, -⟩ := delim_char_facts (by simpa [delimOk] using hd)
      simp [h1]

theorem char_eq_of_toNat {c : Char} {n : Nat} (h : c.toNat = n) : c = Char.ofNat n := by
  rw [← h, Char.ofNat_toNat]

@[simp] theorem toNat_dq : dq.toNat = 34 := rfl

@[simp] theorem toNat_bsl : bsl.toNat = 92 := rfl

@[simp] theorem toNat_lcurly : lcurly.toNat = 123 := rfl

@[simp] theorem toNat_rcurly : rcurly.toNat = 125 := rfl

@[simp] theorem toNat_sp : (' ').toNat = 32 := rfl

@[simp] theorem toNat_colon : (':').toNat = 58 := rfl

@[simp] theorem toNat_comma : (',').toNat = 44 := rfl

@[simp] theorem toNat_lbrack : ('[').toNat = 91 := rfl

@[simp] theorem toNat_rbrack : (']').toNat = 93 := rfl

@[simp] theorem toNat_minus : ('-').toNat = 45 := rfl

@[simp] theorem toNat_slash : ('/').toNat = 47 := rfl

@[simp] theorem toNat_a : ('a').toNat = 97 := rfl

@[simp] theorem toNat_b : ('b').toNat = 98 := rfl

@[simp] theorem toNat_e : ('e').toNat = 101 := rfl

@[simp] theorem toNat_f : ('f').toNat = 102 := rfl

@[simp] theorem toNat_l : ('l').toNat = 108 := rfl

@[simp] theorem toNat_n : ('n').toNat = 110 := rfl

@[simp] theorem toNat_r : ('r').toNat = 114 := rfl

@[simp] theorem toNat_s : ('s').toNat = 115 := rfl

@[simp] theorem toNat_t : ('t').toNat = 116 := rfl

@[simp] theorem toNat_u : ('u').toNat = 117 := rfl

@[simp] theorem toNat_c8 : (Char.ofNat 8).toNat = 8 := rfl

@[simp] theorem toNat_c9 : (Char.ofNat 9).toNat = 9 := rfl

@[simp] theorem toNat_c10 : (Char.ofNat 10).toNat = 10 := rfl

@[simp] theorem toNat_c12 : (Char.ofNat 12).toNat = 12 := rfl

@[simp] theorem toNat_c13 : (Char.ofNat 13).toNat = 13 := rfl

theorem hexDigitVal_hexDigitChar {d : Nat} (h : d < 16) :
    hexDigitVal (hexDigitChar d) = some d := by
  interval_cases d <;> rfl

theorem hex4val_hex4 {n : Nat} (h : n < 65536) :
    hex4val (hexDigitChar (n / 4096)) (hexDigitChar (n / 256 % 16)) (hexDigitChar (n / 16 % 16))
      (hexDigitChar (n % 16)) = some n := by
  rw [hex4val, hexDigitVal_hexDigitChar (show n / 4096 < 16 by omega),
    hexDigitVal_hexDigitChar (show n / 256 % 16 < 16 by omega),
    hexDigitVal_hexDigitChar (show n / 16 % 16 < 16 by omega),
    hexDigitVal_hexDigitChar (show n % 16 < 16 by omega)]
  simp only [Option.some.injEq]
  omega

theorem char_valid_range (c : Char) :
    c.toNat < 55296 ∨ (57343 < c.toNat ∧ c.toNat < 1114112) := c.valid


theorem scanHex_plain {c : Char} (h : c.toNat < 65536) (rest : Str) :
    scanHex (hex4 c.toNat ++ rest) = some (c, rest) := by
  have hv := char_valid_range c
  simp only [hex4, List.cons_append, List.nil_append, scanHex, hex4val_hex4 h]
  rw [if_neg (show ¬(55296 ≤ c.toNat ∧ c.toNat < 56320) by omega)]
  simp only [mkChar_toNat c]

theorem scanHex_pair {c : Char} (h : 65536 ≤ c.toNat) (rest : Str) :
    scanHex (hex4 (55296 + (c.toNat - 65536) / 1024) ++
      (bsl :: 'u' :: (hex4 (56320 + (c.toNat - 65536) % 1024) ++ rest))) = some (c, rest) := by
  have hv := char_valid_range c
  simp only [hex4, List.cons_append, List.nil_append]
  rw [scanHex]
  rw [hex4val_hex4 (show 55296 + (c.toNat - 65536) / 1024 < 65536 by omega)]
  show (if 55296 ≤ 55296 + (c.toNat - 65536) / 1024 ∧ 55296 + (c.toNat - 65536) / 1024 < 56320
    then _ else _) = _
  rw [if_pos (show 55296 ≤ 55296 + (c.toNat - 65536) / 1024 ∧
    55296 + (c.toNat - 65536) / 1024 < 56320 by omega)]
  show (if bsl.toNat = 92 ∧ ('u').toNat = 117 then _ else _) = _
  rw [if_pos (show bsl.toNat = 92 ∧ ('u').toNat = 117 from ⟨rfl, rfl⟩)]
  rw [hex4val_hex4 (show 56320 + (c.toNat - 65536) % 1024 < 65536 by omega)]
  show (if 56320 ≤ 56320 + (c.toNat - 65536) % 1024 ∧ 56320 + (c.toNat - 65536) % 1024 < 57344
    then _ else _) = _
  rw [if_pos (show 56320 ≤ 56320 + (c.toNat - 65536) % 1024 ∧
    56320 + (c.toNat - 65536) % 1024 < 57344 by omega)]
  have hx : 65536 + (55296 + (c.toNat - 65536) / 1024 - 55296) * 1024 +
      (56320 + (c.toNat - 65536) % 1024 - 56320) = c.toNat := by omega
  rw [hx, mkChar_toNat c]

theorem parseStr_escList (s : Str) : ∀ f rest, s.length < f →
    parseStr f (escList s ++ dq :: rest) = some (s, rest) := by
  induction s with
  | nil =>
    intro f rest hf
    match f, hf with
    | f + 1, _ =>
      show parseStr (f + 1) (dq :: rest) = some ([], rest)
      simp [parseStr]
  | cons c s ih =>
    intro f rest hf
    match f, hf with
    | f + 1, hf =>
      have ihs : parseStr f (escList s ++ dq :: rest) = some (s, rest) :=
        ih f rest (by simpa using Nat.lt_of_succ_lt_succ hf)
      have hv := char_valid_range c
      have hsplit : escList (c :: s) ++ dq :: rest = escChar c ++ (escList s ++ dq :: rest) := by
        show (escChar c ++ escList s) ++ dq :: rest = _
        rw [List.append_assoc]
      rw [hsplit]
      unfold escChar
      by_cases h92 : c.toNat = 92
      · simp only [if_pos h92, List.cons_append, List.nil_append]
        simp only [parseStr, toNat_bsl, scanEsc]
        norm_num [ihs]
        exact (char_eq_of_toNat h92).symm
      · rw [if_neg h92]
        by_cases h34 : c.toNat = 34
        · simp only [if_pos h34, List.cons_append, List.nil_append]
          simp only [parseStr, toNat_bsl, toNat_dq, scanEsc]
          norm_num [ihs]
          exact (char_eq_of_toNat h34).symm
        · rw [if_neg h34]
          by_cases h8 : c.toNat = 8
          · simp only [if_pos h8, List.cons_append, List.nil_append]
            simp only [parseStr, toNat_bsl, toNat_b, scanEsc]
            norm_num [ihs]
            exact (char_eq_of_toNat h8).symm
          · rw [if_neg h8]
            by_cases h9 : c.toNat = 9
            · simp only [if_pos h9, List.cons_append, List.nil_append]
              simp only [parseStr, toNat_bsl, toNat_t, scanEsc]
              norm_num [ihs]
              exact (char_eq_of_toNat h9).symm
            · rw [if_neg h9]
              by_cases h10 : c.toNat = 10
              · simp only [if_pos h10, List.cons_append, List.nil_append]
                simp only [parseStr, toNat_bsl, toNat_n, scanEsc]
                norm_num [ihs]
                exact (char_eq_of_toNat h10).symm
              · rw [if_neg h10]
                by_cases h12 : c.toNat = 12
                · simp only [if_pos h12, List.cons_append, List.nil_append]
                  simp only [parseStr, toNat_bsl, toNat_f, scanEsc]
                  norm_num [ihs]
                  exact (char_eq_of_toNat h12).symm
                · rw [if_neg h12]
                  by_cases h13 : c.toNat = 13
                  · simp only [if_pos h13, List.cons_append, List.nil_append]
                    simp only [parseStr, toNat_bsl, toNat_r, scanEsc]
                    norm_num [ihs]
                    exact (char_eq_of_toNat h13).symm
                  · rw [if_neg h13]
                    by_cases hc32 : c.toNat < 32
                    · rw [if_pos hc32]
                      simp only [List.cons_append, List.append_assoc]
                      simp only [parseStr, toNat_bsl, toNat_u, scanEsc]
                      norm_num
                      rw [scanHex_plain (show c.toNat < 65536 by omega)]
                      simp [ihs]
                    · rw [if_neg hc32]
                      by_cases hc127 : c.toNat < 127
                      · rw [if_pos hc127]
                        simp only [List.singleton_append]
                        simp only [parseStr]
                        rw [if_neg h34, if_neg h92, if_neg hc32, ihs]
                        rfl
                      · rw [if_neg hc127]
                        by_cases hc64k : c.toNat < 65536
                        · rw [if_pos hc64k]
                          simp only [List.cons_append, List.append_assoc]
                          simp only [parseStr, toNat_bsl, toNat_u, scanEsc]
                          norm_num
                          rw [scanHex_plain hc64k]
                          simp [ihs]
                        · rw [if_neg hc64k]
                          simp only [List.cons_append, List.append_assoc, List.nil_append]
                          rw [parseStr]
                          rw [if_neg (show ¬(bsl.toNat = 34) by decide)]
                          rw [if_pos (show bsl.toNat = 92 from rfl)]
                          rw [scanEsc]
                          rw [if_neg (show ¬(('u').toNat = 34) by decide),
                            if_neg (show ¬(('u').toNat = 92) by decide),
                            if_neg (show ¬(('u').toNat = 47) by decide),
                            if_neg (show ¬(('u').toNat = 98) by decide),
                            if_neg (show ¬(('u').toNat = 102) by decide),
                            if_neg (show ¬(('u').toNat = 110) by decide),
                            if_neg (show ¬(('u').toNat = 114) by decide),
                            if_neg (show ¬(('u').toNat = 116) by decide),
                            if_pos (show ('u').toNat = 117 from rfl)]
                          rw [scanHex_pair (show 65536 ≤ c.toNat by omega)]
                          simp [ihs]

theorem skipWs_cons_of_not_ws {c : Char} (h : isWs c = false) (t : Str) :
    skipWs (c :: t) = c :: t := by
  simp [skipWs, h]

/-- Every serialized value starts with a character that is not whitespace and
not a closing bracket. -/
theorem dumps_head (m : Json) : ∃ c cs, dumps m = c :: cs ∧ isWs c = false ∧
    c.toNat ≠ 93 ∧ c.toNat ≠ 125 := by
  match m with
  | .null => exact ⟨'n', _, rfl, by decide, by decide, by decide⟩
  | .bool true => exact ⟨'t', _, rfl, by decide, by decide, by decide⟩
  | .bool false => exact ⟨'f', _, rfl, by decide, by decide, by decide⟩
  | .num n =>
    show ∃ c cs, intDigits n = c :: cs ∧ _
    unfold intDigits
    by_cases hn : n < 0
    · exact ⟨'-', _, by rw [if_pos hn], by decide, by decide, by decide⟩
    · rw [if_neg hn]
      match hh : natDigits n.toNat with
      | [] => exact absurd hh (natDigits_ne_nil _)
      | c :: cs =>
        have hd := natDigits_all_digits n.toNat c (by rw [hh]; exact List.mem_cons_self c cs)
        simp only [isDigitCh, Bool.and_eq_true, decide_eq_true_eq] at hd
        refine ⟨c, cs, rfl, ?_, by omega, by omega⟩
        simp only [isWs, Bool.or_eq_false_iff, decide_eq_false_iff_not]
        omega
  | .str s => exact ⟨dq, _, rfl, by decide, by decide, by decide⟩
  | .arr xs => exact ⟨'[', _, rfl, by decide, by decide, by decide⟩
  | .obj kvs => exact ⟨lcurly, _, rfl, by decide, by decide, by decide⟩

theorem dumpsArr_head (y : Json) (t : List Json) : ∃ c cs, dumpsArr (y :: t) = c :: cs ∧
    isWs c = false ∧ c.toNat ≠ 93 ∧ c.toNat ≠ 125 := by
  obtain ⟨c, cs, hc, hw, h93, h125⟩ := dumps_head y
  match t with
  | [] => exact ⟨c, cs, hc, hw, h93, h125⟩
  | z :: t' =>
    refine ⟨c, cs ++ ',' :: ' ' :: dumpsArr (z :: t'), ?_, hw, h93, h125⟩
    show dumps y ++ ',' :: ' ' :: dumpsArr (z :: t') = _
    rw [hc]
    rfl

theorem dumpsObj_head (e : Str × Json) (t : List (Str × Json)) :
    ∃ cs, dumpsObj (e :: t) = dq :: cs := by
  match e, t with
  | (k, v), [] => exact ⟨_, rfl⟩
  | (k, v), e2 :: t' => exact ⟨_, rfl⟩

/-- Distinctness of the keys of an object entry list. -/
def keysDistinct : List (Str × Json) → Bool
  | [] => true
  | (k, _) :: t => (t.all fun e => decide (e.1 ≠ k)) && keysDistinct t

theorem jwfObj_keysDistinct : ∀ kvs, jwfObj kvs = true → keysDistinct kvs = true := by
  intro kvs h
  induction kvs with
  | nil => rfl
  | cons e t ih =>
    match e with
    | (k, v) =>
      rw [jwfObj, Bool.and_eq_true, Bool.and_eq_true] at h
      rw [keysDistinct, Bool.and_eq_true]
      exact ⟨h.1.1, ih h.2⟩

theorem insertPair_eq_append {ps : List (Str × Json)} {p : Str × Json}
    (h : ∀ q ∈ ps, ¬(q.1 = p.1)) : insertPair ps p = ps ++ [p] := by
  induction ps with
  | nil => rfl
  | cons q t ih =>
    match q with
    | (k, v) =>
      rw [insertPair, if_neg (h (k, v) (List.mem_cons_self _ _)),
        ih fun q hq => h q (List.mem_cons_of_mem _ hq)]
      rfl

theorem foldl_insertPair : ∀ kvs : List (Str × Json), keysDistinct kvs = true →
    ∀ acc, (∀ p ∈ kvs, ∀ q ∈ acc, ¬(q.1 = p.1)) →
    List.foldl insertPair acc kvs = acc ++ kvs := by
  intro kvs
  induction kvs with
  | nil => intro _ acc _; simp
  | cons e t ih =>
    intro hk acc hacc
    match e with
    | (k, v) =>
      rw [keysDistinct, Bool.and_eq_true, List.all_eq_true] at hk
      rw [List.foldl_cons, insertPair_eq_append (hacc (k, v) (List.mem_cons_self _ _))]
      rw [ih hk.2 (acc ++ [(k, v)]) ?_]
      · simp
      · intro p hp q hq
        rcases List.mem_append.mp hq with hq | hq
        · exact hacc p (List.mem_cons_of_mem _ hp) q hq
        · have := hk.1 p hp
          simp only [decide_eq_true_eq] at this
          simp only [List.mem_singleton.mp hq]
          exact fun hh => this hh.symm

theorem dedupPairs_id {kvs : List (Str × Json)} (h : keysDistinct kvs = true) :
    dedupPairs kvs = kvs := by
  unfold dedupPairs
  rw [foldl_insertPair kvs h [] (by intro p _ q hq; cases hq)]
  rfl

mutual

/-- Fuel sufficient for `parseVal` to parse the serialization of a value. -/
def cost : Json → Nat
  | .null => 1
  | .bool _ => 1
  | .num _ => 1
  | .str s => s.length + 2
  | .arr xs => 1 + costA xs
  | .obj kvs => 1 + costO kvs

def costA : List Json → Nat
  | [] => 0
  | x :: t => 1 + max (cost x) (costA t)

def costO : List (Str × Json) → Nat
  | [] => 0
  | (k, v) :: t => 1 + max (k.length + 1) (max (cost v) (costO t))

end

theorem escChar_length_pos (c : Char) : 1 ≤ (escChar c).length := by
  unfold escChar
  simp only []
  split_ifs <;> simp [hex4]

theorem escList_length (s : Str) : s.length ≤ (escList s).length := by
  induction s with
  | nil => simp [escList]
  | cons c t ih =>
    show t.length + 1 ≤ (escChar c ++ escList t).length
    rw [List.length_append]
    have := escChar_length_pos c
    omega

mutual

theorem cost_le (m : Json) : cost m ≤ (dumps m).length := by
  match m with
  | .null => simp [cost, dumps]
  | .bool true => simp [cost, dumps]
  | .bool false => simp [cost, dumps]
  | .num n =>
    have : 1 ≤ (dumps (.num n)).length := by
      show 1 ≤ (intDigits n).length
      unfold intDigits
      split
      · simp
      · have := natDigits_ne_nil n.toNat
        match hh : natDigits n.toNat with
        | [] => exact absurd hh this
        | c :: cs => simp [hh]
    exact this
  | .str s =>
    show s.length + 2 ≤ (dumpStr s).length
    unfold dumpStr
    simp only [List.length_cons, List.length_append, List.length_singleton]
    have := escList_length s
    omega
  | .arr xs =>
    show 1 + costA xs ≤ ('[' :: dumpsArr xs ++ [']']).length
    have := costA_le xs
    simp only [List.length_cons, List.length_append, List.length_singleton]
    omega
  | .obj kvs =>
    show 1 + costO kvs ≤ (lcurly :: dumpsObj kvs ++ [rcurly]).length
    have := costO_le kvs
    simp only [List.length_cons, List.length_append, List.length_singleton]
    omega

theorem costA_le (xs : List Json) : costA xs ≤ (dumpsArr xs).length + 1 := by
  match xs with
  | [] => simp [costA, dumpsArr]
  | [x] =>
    show 1 + max (cost x) (costA []) ≤ (dumps x).length + 1
    have := cost_le x
    simp only [costA]
    omega
  | x :: y :: t =>
    show 1 + max (cost x) (costA (y :: t)) ≤
      (dumps x ++ ',' :: ' ' :: dumpsArr (y :: t)).length + 1
    have h1 := cost_le x
    have h2 := costA_le (y :: t)
    simp only [List.length_append, List.length_cons]
    omega

theorem costO_le (kvs : List (Str × Json)) : costO kvs ≤ (dumpsObj kvs).length + 1 := by
  match kvs with
  | [] => simp [costO, dumpsObj]
  | [(k, v)] =>
    show 1 + max (k.length + 1) (max (cost v) (costO [])) ≤
      (dumpStr k ++ ':' :: ' ' :: dumps v).length + 1
    have h1 := cost_le v
    have h2 := escList_length k
    simp only [costO, dumpStr, List.length_append, List.length_cons, List.length_singleton]
    omega
  | (k, v) :: e :: t =>
    show 1 + max (k.length + 1) (max (cost v) (costO (e :: t))) ≤
      (dumpStr k ++ ':' :: ' ' :: dumps v ++ ',' :: ' ' :: dumpsObj (e :: t)).length + 1
    have h1 := cost_le v
    have h2 := costO_le (e :: t)
    have h3 := escList_length k
    simp only [dumpStr, List.length_append, List.length_cons, List.length_singleton]
    omega

end

theorem delimOk_rbrack (r : Str) : delimOk (']' :: r) = true := by simp [delimOk]

theorem delimOk_rcurlyb (r : Str) : delimOk (rcurly :: r) = true := by simp [delimOk]

theorem delimOk_comma (r : Str) : delimOk (',' :: r) = true := by simp [delimOk]

theorem obind_some {α β : Type} (a : α) (f : α → Option β) : (some a).bind f = f a := rfl

@[simp] theorem tailOf_cons (c : Char) (t : Str) : tailOf (c :: t) = t := rfl

@[simp] theorem headIsClose_cons (n : Nat) (c : Char) (t : Str) :
    headIsClose n (c :: t) = decide (c.toNat = n) := rfl

theorem skipWs_space (L : Str) : skipWs (' ' :: L) = skipWs L := by
  simp [skipWs, isWs]

theorem skipWs_dumps_append (m : Json) (X : Str) :
    skipWs (dumps m ++ X) = dumps m ++ X := by
  obtain ⟨c, cs, hc, hw, -, -⟩ := dumps_head m
  rw [hc, List.cons_append, skipWs_cons_of_not_ws hw]

theorem skipWs_dumpsArr_append (y : Json) (t : List Json) (X : Str) :
    skipWs (dumpsArr (y :: t) ++ X) = dumpsArr (y :: t) ++ X := by
  obtain ⟨c, cs, hc, hw, -, -⟩ := dumpsArr_head y t
  rw [hc, List.cons_append, skipWs_cons_of_not_ws hw]

theorem skipWs_dumpsObj_append (e : Str × Json) (t : List (Str × Json)) (X : Str) :
    skipWs (dumpsObj (e :: t) ++ X) = dumpsObj (e :: t) ++ X := by
  obtain ⟨cs, hc⟩ := dumpsObj_head e t
  rw [hc, List.cons_append, skipWs_cons_of_not_ws (by decide)]

mutual

theorem parseVal_dumps (m : Json) : ∀ f rest, cost m ≤ f → jwf m = true →
    delimOk rest = true → parseVal f (dumps m ++ rest) = some (m, rest) := by
  match m with
  | .null =>
    intro f rest hc _ _
    have h1 : 1 ≤ f := by simpa [cost] using hc
    obtain ⟨f, rfl⟩ : ∃ g, f = g + 1 := ⟨f - 1, by omega⟩
    show parseVal (f + 1) ('n' :: 'u' :: 'l' :: 'l' :: rest) = some (.null, rest)
    rw [parseVal, if_pos (show ('n').toNat = 110 from rfl)]
    simp [litTail]
  | .bool true =>
    intro f rest hc _ _
    have h1 : 1 ≤ f := by simpa [cost] using hc
    obtain ⟨f, rfl⟩ : ∃ g, f = g + 1 := ⟨f - 1, by omega⟩
    show parseVal (f + 1) ('t' :: 'r' :: 'u' :: 'e' :: rest) = some (.bool true, rest)
    rw [parseVal, if_neg (by decide), if_pos (show ('t').toNat = 116 from rfl)]
    simp [litTail]
  | .bool false =>
    intro f rest hc _ _
    have h1 : 1 ≤ f := by simpa [cost] using hc
    obtain ⟨f, rfl⟩ : ∃ g, f = g + 1 := ⟨f - 1, by omega⟩
    show parseVal (f + 1) ('f' :: 'a' :: 'l' :: 's' :: 'e' :: rest) = some (.bool false, rest)
    rw [parseVal, if_neg (by decide), if_neg (by decide),
      if_pos (show ('f').toNat = 102 from rfl)]
    simp [litTail]
  | .num n =>
    intro f rest hc _ hdel
    have h1 : 1 ≤ f := by simpa [cost] using hc
    obtain ⟨f, rfl⟩ : ∃ g, f = g + 1 := ⟨f - 1, by omega⟩
    show parseVal (f + 1) (intDigits n ++ rest) = some (.num n, rest)
    unfold intDigits
    by_cases hn : n < 0
    · rw [if_pos hn]
      simp only [List.cons_append]
      rw [parseVal, if_neg (by decide), if_neg (by decide), if_neg (by decide),
        if_pos (show ('-').toNat = 45 from rfl)]
      rw [parseNumTail_natDigits n.natAbs rest hdel]
      show some (Json.num (-((n.natAbs : Nat) : Int)), rest) = some (.num n, rest)
      rw [show -((n.natAbs : Nat) : Int) = n by omega]
    · rw [if_neg hn]
      match hh : natDigits n.toNat with
      | [] => exact absurd hh (natDigits_ne_nil _)
      | c :: cs =>
        have hd := natDigits_all_digits n.toNat c (by rw [hh]; exact List.mem_cons_self c cs)
        have hd2 : 48 ≤ c.toNat ∧ c.toNat ≤ 57 := by
          simpa [isDigitCh] using hd
        show parseVal (f + 1) ((c :: cs) ++ rest) = some (.num n, rest)
        simp only [List.cons_append]
        rw [parseVal, if_neg (by omega), if_neg (by omega), if_neg (by omega),
          if_neg (by omega), if_neg (by omega), if_neg (by omega), if_neg (by omega),
          if_pos hd]
        have hback : c :: (cs ++ rest) = natDigits n.toNat ++ rest := by rw [hh]; rfl
        rw [hback, parseNumTail_natDigits n.toNat rest hdel]
        show some (Json.num ((n.toNat : Nat) : Int), rest) = some (.num n, rest)
        rw [show ((n.toNat : Nat) : Int) = n by omega]
  | .str s =>
    intro f rest hc _ _
    have h1 : s.length + 2 ≤ f := by simpa [cost] using hc
    obtain ⟨f, rfl⟩ : ∃ g, f = g + 1 := ⟨f - 1, by omega⟩
    show parseVal (f + 1) (dumpStr s ++ rest) = some (.str s, rest)
    unfold dumpStr
    simp only [List.cons_append, List.append_assoc, List.singleton_append, List.nil_append]
    rw [parseVal, if_neg (by decide), if_neg (by decide), if_neg (by decide),
      if_neg (by decide), if_pos (show dq.toNat = 34 from rfl)]
    rw [parseStr_escList s f rest (by omega)]
    rfl
  | .arr [] =>
    intro f rest hc _ _
    have h1 : 1 ≤ f := by simp [cost, costA] at hc; omega
    obtain ⟨f, rfl⟩ : ∃ g, f = g + 1 := ⟨f - 1, by omega⟩
    show parseVal (f + 1) ('[' :: ']' :: rest) = some (.arr [], rest)
    rw [parseVal, if_neg (by decide), if_neg (by decide), if_neg (by decide),
      if_neg (by decide), if_neg (by decide), if_pos (show ('[').toNat = 91 from rfl)]
    rw [skipWs_cons_of_not_ws (by decide)]
    rw [if_pos (show headIsClose 93 (']' :: rest) = true from rfl)]
    rfl
  | .arr (x :: t) =>
    intro f rest hc hwf hdel
    have h1 : 1 + costA (x :: t) ≤ f := by simpa [cost] using hc
    obtain ⟨f, rfl⟩ : ∃ g, f = g + 1 := ⟨f - 1, by omega⟩
    show parseVal (f + 1) (('[' :: dumpsArr (x :: t) ++ [']']) ++ rest) = some (.arr (x :: t), rest)
    simp only [List.cons_append, List.append_assoc, List.singleton_append, List.nil_append]
    rw [parseVal, if_neg (by decide), if_neg (by decide), if_neg (by decide),
      if_neg (by decide), if_neg (by decide), if_pos (show ('[').toNat = 91 from rfl)]
    obtain ⟨hd, hs, hhd, hw, h93, _⟩ := dumpsArr_head x t
    rw [hhd]
    simp only [List.cons_append]
    rw [skipWs_cons_of_not_ws hw]
    rw [if_neg (show ¬(headIsClose 93 (hd :: (hs ++ ']' :: rest)) = true) by
      simp [h93])]
    have hback : hd :: (hs ++ ']' :: rest) = dumpsArr (x :: t) ++ ']' :: rest := by
      rw [hhd]; rfl
    rw [hback]
    rw [parseArrTail_dumps (x :: t) (by simp) f rest (by omega)
      (by simpa [jwf] using hwf) hdel]
    rfl
  | .obj [] =>
    intro f rest hc _ _
    have h1 : 1 ≤ f := by simp [cost, costO] at hc; omega
    obtain ⟨f, rfl⟩ : ∃ g, f = g + 1 := ⟨f - 1, by omega⟩
    show parseVal (f + 1) (lcurly :: rcurly :: rest) = some (.obj [], rest)
    rw [parseVal, if_neg (by decide), if_neg (by decide), if_neg (by decide),
      if_neg (by decide), if_neg (by decide), if_neg (by decide),
      if_pos (show lcurly.toNat = 123 from rfl)]
    rw [skipWs_cons_of_not_ws (by decide)]
    rw [if_pos (show headIsClose 125 (rcurly :: rest) = true from rfl)]
    rfl
  | .obj (e :: t) =>
    intro f rest hc hwf hdel
    have h1 : 1 + costO (e :: t) ≤ f := by simpa [cost] using hc
    obtain ⟨f, rfl⟩ : ∃ g, f = g + 1 := ⟨f - 1, by omega⟩
    show parseVal (f + 1) ((lcurly :: dumpsObj (e :: t) ++ [rcurly]) ++ rest) =
      some (.obj (e :: t), rest)
    simp only [List.cons_append, List.append_assoc, List.singleton_append, List.nil_append]
    rw [parseVal, if_neg (by decide), if_neg (by decide), if_neg (by decide),
      if_neg (by decide), if_neg (by decide), if_neg (by decide),
      if_pos (show lcurly.toNat = 123 from rfl)]
    obtain ⟨hs, hhd⟩ := dumpsObj_head e t
    rw [hhd]
    simp only [List.cons_append]
    rw [skipWs_cons_of_not_ws (by decide)]
    rw [if_neg (show ¬(headIsClose 125 (dq :: (hs ++ rcurly :: rest)) = true) by
      simp)]
    have hback : dq :: (hs ++ rcurly :: rest) = dumpsObj (e :: t) ++ rcurly :: rest := by
      rw [hhd]; rfl
    rw [hback]
    have hobj : jwfObj (e :: t) = true := by simpa [jwf] using hwf
    rw [parseObjTail_dumps (e :: t) (by simp) f rest (by omega) hobj hdel]
    show some (Json.obj (dedupPairs (e :: t)), rest) = _
    rw [dedupPairs_id (jwfObj_keysDistinct _ hobj)]
termination_by sizeOf m

theorem parseArrTail_dumps (xs : List Json) (hne : xs ≠ []) : ∀ f rest, costA xs ≤ f →
    jwfList xs = true → delimOk rest = true →
    parseArrTail f (dumpsArr xs ++ ']' :: rest) = some (xs, rest) := by
  match xs with
  | [] => exact absurd rfl hne
  | [x] =>
    intro f rest hc hwf hdel
    have h1 : 1 + cost x ≤ f := by simp [costA] at hc; omega
    obtain ⟨f, rfl⟩ : ∃ g, f = g + 1 := ⟨f - 1, by omega⟩
    show parseArrTail (f + 1) (dumps x ++ ']' :: rest) = some ([x], rest)
    rw [parseArrTail]
    rw [parseVal_dumps x f (']' :: rest) (by omega) (by simpa [jwfList] using hwf)
      (delimOk_rbrack rest)]
    rw [obind_some]
    show (if headIsClose 44 (skipWs (']' :: rest)) = true then _ else _) = _
    rw [skipWs_cons_of_not_ws (by decide)]
    rw [if_neg (show ¬(headIsClose 44 (']' :: rest) = true) by simp)]
    rw [if_pos (show headIsClose 93 (']' :: rest) = true from rfl)]
    rfl
  | x :: y :: t =>
    intro f rest hc hwf hdel
    have h1 : 1 + max (cost x) (costA (y :: t)) ≤ f := by simpa [costA] using hc
    obtain ⟨f, rfl⟩ : ∃ g, f = g + 1 := ⟨f - 1, by omega⟩
    have hwx : jwf x = true ∧ jwfList (y :: t) = true := by
      simpa [jwfList, Bool.and_eq_true] using hwf
    show parseArrTail (f + 1) ((dumps x ++ ',' :: ' ' :: dumpsArr (y :: t)) ++ ']' :: rest) =
      some (x :: y :: t, rest)
    simp only [List.append_assoc, List.cons_append]
    rw [parseArrTail]
    rw [parseVal_dumps x f _ (by omega) hwx.1 (delimOk_comma _)]
    rw [obind_some]
    show (if headIsClose 44 (skipWs (',' :: (' ' :: (dumpsArr (y :: t) ++ ']' :: rest)))) = true
      then _ else _) = _
    rw [skipWs_cons_of_not_ws (by decide)]
    rw [if_pos (show headIsClose 44 (',' :: (' ' :: (dumpsArr (y :: t) ++ ']' :: rest))) = true
      from rfl)]
    rw [tailOf_cons, skipWs_space, skipWs_dumpsArr_append]
    rw [parseArrTail_dumps (y :: t) (by simp) f rest (by omega) hwx.2 hdel]
    rfl
termination_by sizeOf xs

theorem parseObjTail_dumps (kvs : List (Str × Json)) (hne : kvs ≠ []) : ∀ f rest,
    costO kvs ≤ f → jwfObj kvs = true → delimOk rest = true →
    parseObjTail f (dumpsObj kvs ++ rcurly :: rest) = some (kvs, rest) := by
  match kvs with
  | [] => exact absurd rfl hne
  | [(k, v)] =>
    intro f rest hc hwf hdel
    have h1 : 1 + max (k.length + 1) (max (cost v) (costO [])) ≤ f := by
      simpa [costO] using hc
    obtain ⟨f, rfl⟩ : ∃ g, f = g + 1 := ⟨f - 1, by omega⟩
    have hwv : jwf v = true := by
      rw [jwfObj, Bool.and_eq_true, Bool.and_eq_true] at hwf
      exact hwf.1.2
    show parseObjTail (f + 1) ((dumpStr k ++ ':' :: ' ' :: dumps v) ++ rcurly :: rest) =
      some ([(k, v)], rest)
    unfold dumpStr
    simp only [List.cons_append, List.append_assoc, List.singleton_append, List.nil_append]
    rw [parseObjTail, if_pos (show dq.toNat = 34 from rfl)]
    rw [parseStr_escList k f _ (by omega)]
    rw [obind_some]
    show (if headIsClose 58 (skipWs (':' :: (' ' :: (dumps v ++ rcurly :: rest)))) = true
      then _ else _) = _
    rw [skipWs_cons_of_not_ws (by decide)]
    rw [if_pos (show headIsClose 58 (':' :: (' ' :: (dumps v ++ rcurly :: rest))) = true
      from rfl)]
    rw [tailOf_cons, skipWs_space, skipWs_dumps_append]
    rw [parseVal_dumps v f (rcurly :: rest) (by omega) hwv (delimOk_rcurlyb rest)]
    rw [obind_some]
    show (if headIsClose 44 (skipWs (rcurly :: rest)) = true then _ else _) = _
    rw [skipWs_cons_of_not_ws (by decide)]
    rw [if_neg (show ¬(headIsClose 44 (rcurly :: rest) = true) by simp)]
    rw [if_pos (show headIsClose 125 (rcurly :: rest) = true from rfl)]
    rfl
  | (k, v) :: e :: t =>
    intro f rest hc hwf hdel
    have h1 : 1 + max (k.length + 1) (max (cost v) (costO (e :: t))) ≤ f := by
      simpa [costO] using hc
    obtain ⟨f, rfl⟩ : ∃ g, f = g + 1 := ⟨f - 1, by omega⟩
    have hwv : jwf v = true ∧ jwfObj (e :: t) = true := by
      rw [jwfObj, Bool.and_eq_true, Bool.and_eq_true] at hwf
      exact ⟨hwf.1.2, hwf.2⟩
    show parseObjTail (f + 1)
      ((dumpStr k ++ ':' :: ' ' :: dumps v ++ ',' :: ' ' :: dumpsObj (e :: t)) ++
        rcurly :: rest) = some ((k, v) :: e :: t, rest)
    unfold dumpStr
    simp only [List.cons_append, List.append_assoc, List.singleton_append, List.nil_append]
    rw [parseObjTail, if_pos (show dq.toNat = 34 from rfl)]
    rw [parseStr_escList k f _ (by omega)]
    rw [obind_some]
    show (if headIsClose 58 (skipWs (':' :: (' ' :: (dumps v ++
      ',' :: ' ' :: (dumpsObj (e :: t) ++ rcurly :: rest))))) = true then _ else _) = _
    rw [skipWs_cons_of_not_ws (by decide)]
    rw [if_pos (show headIsClose 58 (':' :: (' ' :: (dumps v ++
      ',' :: ' ' :: (dumpsObj (e :: t) ++ rcurly :: rest)))) = true from rfl)]
    rw [tailOf_cons, skipWs_space, skipWs_dumps_append]
    rw [parseVal_dumps v f _ (by omega) hwv.1 (delimOk_comma _)]
    rw [obind_some]
    show (if headIsClose 44 (skipWs (',' :: (' ' :: (dumpsObj (e :: t) ++ rcurly :: rest)))) =
      true then _ else _) = _
    rw [skipWs_cons_of_not_ws (by decide)]
    rw [if_pos (show headIsClose 44 (',' :: (' ' :: (dumpsObj (e :: t) ++ rcurly :: rest))) =
      true from rfl)]
    rw [tailOf_cons, skipWs_space, skipWs_dumpsObj_append]
    rw [parseObjTail_dumps (e :: t) (by simp) f rest (by omega) hwv.2 hdel]
    rfl
termination_by sizeOf kvs

end

theorem skipWs_dumps (m : Json) : skipWs (dumps m) = dumps m := by
  obtain ⟨c, cs, hc, hw, -, -⟩ := dumps_head m
  rw [hc, skipWs_cons_of_not_ws hw]

/-- Round trip of the embedded `json` module: parsing the serialization of any
well-formed value returns the value. -/
theorem jsonLoads_dumps (m : Json) (h : jwf m = true) : jsonLoads (dumps m) = some m := by
  unfold jsonLoads
  rw [skipWs_dumps]
  have hp : parseVal ((dumps m).length + 1) (dumps m ++ []) = some (m, []) :=
    parseVal_dumps m ((dumps m).length + 1) [] (by have := cost_le m; omega) h rfl
  rw [List.append_nil] at hp
  rw [hp]
  rfl

/-- UTF-8 encoding of one scalar value (`str.encode('utf-8')` for one
character). -/
def utf8EncodeChar (c : Char) : List Nat :=
  let v := c.toNat
  if v < 128 then [v]
  else if v < 2048 then [192 + v / 64, 128 + v % 64]
  else if v < 65536 then [224 + v / 4096, 128 + v / 64 % 64, 128 + v % 64]
  else [240 + v / 262144, 128 + v / 4096 % 64, 128 + v / 64 % 64, 128 + v % 64]

/-- `bytes(data, 'UTF-8')`: UTF-8 encoding of a text string. -/
def utf8Encode (s : Str) : List Nat := s.foldr (fun c acc => utf8EncodeChar c ++ acc) []

/-- Decode one UTF-8 scalar from the head of a byte string (strict mode:
continuation bytes checked, overlong encodings, surrogates and out-of-range
values rejected, as CPython's `bytes.decode('utf-8')`). -/
def utf8Decode1 (b : Nat) (bs : List Nat) : Option (Nat × List Nat) :=
  if b < 128 then some (b, bs)
  else if b < 192 then none
  else if b < 224 then
    match bs with
    | b2 :: bs2 =>
      if 128 ≤ b2 ∧ b2 < 192 then
        if 128 ≤ (b - 192) * 64 + (b2 - 128) then some ((b - 192) * 64 + (b2 - 128), bs2)
        else none
      else none
    | [] => none
  else if b < 240 then
    match bs with
    | b2 :: b3 :: bs2 =>
      if (128 ≤ b2 ∧ b2 < 192) ∧ (128 ≤ b3 ∧ b3 < 192) then
        if 2048 ≤ (b - 224) * 4096 + (b2 - 128) * 64 + (b3 - 128) ∧
            ¬(55296 ≤ (b - 224) * 4096 + (b2 - 128) * 64 + (b3 - 128) ∧
              (b - 224) * 4096 + (b2 - 128) * 64 + (b3 - 128) < 57344) then
          some ((b - 224) * 4096 + (b2 - 128) * 64 + (b3 - 128), bs2)
        else none
      else none
    | _ => none
  else if b < 248 then
    match bs with
    | b2 :: b3 :: b4 :: bs2 =>
      if (128 ≤ b2 ∧ b2 < 192) ∧ (128 ≤ b3 ∧ b3 < 192) ∧ (128 ≤ b4 ∧ b4 < 192) then
        if 65536 ≤ (b - 240) * 262144 + (b2 - 128) * 4096 + (b3 - 128) * 64 + (b4 - 128) ∧
            (b - 240) * 262144 + (b2 - 128) * 4096 + (b3 - 128) * 64 + (b4 - 128) < 1114112 then
          some ((b - 240) * 262144 + (b2 - 128) * 4096 + (b3 - 128) * 64 + (b4 - 128), bs2)
        else none
      else none
    | _ => none
  else none

/-- Fuel-indexed UTF-8 decoding loop (one unit per decoded character). -/
def utf8DecodeF : Nat → List Nat → Option Str
  | 0, _ => none
  | _ + 1, [] => some []
  | f + 1, b :: bs =>
    (utf8Decode1 b bs).bind fun p =>
      (mkChar p.1).bind fun ch => (utf8DecodeF f p.2).map fun s => ch :: s

/-- `data.decode('utf-8')`: total model, `none` where CPython raises
`UnicodeDecodeError`. -/
def utf8Decode (bs : List Nat) : Option Str := utf8DecodeF (bs.length + 1) bs

theorem utf8Encode_length (s : Str) : s.length ≤ (utf8Encode s).length := by
  induction s with
  | nil => simp [utf8Encode]
  | cons c t ih =>
    show t.length + 1 ≤ (utf8EncodeChar c ++ utf8Encode t).length
    rw [List.length_append]
    have : 1 ≤ (utf8EncodeChar c).length := by
      unfold utf8EncodeChar
      simp only []
      split_ifs <;> simp
    omega

theorem utf8DecodeF_ascii : ∀ (s : Str) (f : Nat), (∀ c ∈ s, c.toNat < 128) →
    s.length < f → utf8DecodeF f (utf8Encode s) = some s := by
  intro s
  induction s with
  | nil =>
    intro f _ hf
    obtain ⟨f, rfl⟩ : ∃ g, f = g + 1 := ⟨f - 1, by omega⟩
    rfl
  | cons c t ih =>
    intro f hascii hf
    obtain ⟨f, rfl⟩ : ∃ g, f = g + 1 := ⟨f - 1, by omega⟩
    have hc : c.toNat < 128 := hascii c (List.mem_cons_self c t)
    show utf8DecodeF (f + 1) (utf8EncodeChar c ++ utf8Encode t) = some (c :: t)
    rw [show utf8EncodeChar c = [c.toNat] by unfold utf8EncodeChar; simp [hc]]
    show utf8DecodeF (f + 1) (c.toNat :: utf8Encode t) = some (c :: t)
    rw [utf8DecodeF]
    rw [show utf8Decode1 c.toNat (utf8Encode t) = some (c.toNat, utf8Encode t) by
      unfold utf8Decode1; rw [if_pos hc]]
    rw [obind_some, mkChar_toNat c, obind_some]
    rw [ih f (fun x hx => hascii x (List.mem_cons_of_mem c hx)) (by simpa using hf)]
    rfl

theorem utf8Decode_encode_ascii (s : Str) (h : ∀ c ∈ s, c.toNat < 128) :
    utf8Decode (utf8Encode s) = some s := by
  unfold utf8Decode
  exact utf8DecodeF_ascii s _ h (by have := utf8Encode_length s; omega)

theorem hex4_ascii {n : Nat} (h : n < 65536) : ∀ x ∈ hex4 n, x.toNat < 128 := by
  have hh : ∀ d : Nat, d < 16 → (hexDigitChar d).toNat < 128 := by
    intro d hd
    interval_cases d <;> decide
  intro x hx
  simp only [hex4, List.mem_cons, List.not_mem_nil, or_false] at hx
  rcases hx with rfl | rfl | rfl | rfl
  · exact hh _ (by omega)
  · exact hh _ (by omega)
  · exact hh _ (by omega)
  · exact hh _ (by omega)

theorem escChar_ascii (c : Char) : ∀ x ∈ escChar c, x.toNat < 128 := by
  have hv := char_valid_range c
  intro x hx
  unfold escChar at hx
  simp only [] at hx
  split_ifs at hx with h1 h2 h3 h4 h5 h6 h7 h8 h9 h10
  · simp only [List.mem_cons, List.not_mem_nil, or_false] at hx
    rcases hx with rfl | rfl <;> decide
  · simp only [List.mem_cons, List.not_mem_nil, or_false] at hx
    rcases hx with rfl | rfl <;> decide
  · simp only [List.mem_cons, List.not_mem_nil, or_false] at hx
    rcases hx with rfl | rfl <;> decide
  · simp only [List.mem_cons, List.not_mem_nil, or_false] at hx
    rcases hx with rfl | rfl <;> decide
  · simp only [List.mem_cons, List.not_mem_nil, or_false] at hx
    rcases hx with rfl | rfl <;> decide
  · simp only [List.mem_cons, List.not_mem_nil, or_false] at hx
    rcases hx with rfl | rfl <;> decide
  · simp only [List.mem_cons, List.not_mem_nil, or_false] at hx
    rcases hx with rfl | rfl <;> decide
  · simp only [List.mem_cons] at hx
    rcases hx with rfl | rfl | hx
    · decide
    · decide
    · exact hex4_ascii (by omega) x hx
  · simp only [List.mem_singleton] at hx
    subst hx
    omega
  · simp only [List.mem_cons] at hx
    rcases hx with rfl | rfl | hx
    · decide
    · decide
    · exact hex4_ascii (by omega) x hx
  · simp only [List.mem_append, List.mem_cons] at hx
    rcases hx with (rfl | rfl | hx) | (rfl | rfl | hx)
    · decide
    · decide
    · exact hex4_ascii (by omega) x hx
    · decide
    · decide
    · exact hex4_ascii (by omega) x hx

theorem natDigits_ascii (n : Nat) : ∀ x ∈ natDigits n, x.toNat < 128 := by
  intro x hx
  have := natDigits_all_digits n x hx
  simp only [isDigitCh, Bool.and_eq_true, decide_eq_true_eq] at this
  omega

theorem escList_mem {s : Str} {x : Char} (h : x ∈ escList s) : ∃ c ∈ s, x ∈ escChar c := by
  induction s with
  | nil => cases h
  | cons c t ih =>
    have h2 : x ∈ escChar c ++ escList t := h
    rcases List.mem_append.mp h2 with h3 | h3
    · exact ⟨c, List.mem_cons_self c t, h3⟩
    · obtain ⟨d, hd, hxd⟩ := ih h3
      exact ⟨d, List.mem_cons_of_mem c hd, hxd⟩

theorem dumpStr_ascii (s : Str) : ∀ x ∈ dumpStr s, x.toNat < 128 := by
  intro x hx
  unfold dumpStr at hx
  rcases List.mem_cons.mp hx with rfl | hx2
  · decide
  · rcases List.mem_append.mp hx2 with h3 | h3
    · obtain ⟨c, -, hc⟩ := escList_mem h3
      exact escChar_ascii c x hc
    · rcases List.mem_singleton.mp h3 with rfl
      decide

mutual

/-- `json.dumps` output under `ensure_ascii=True` is pure ASCII. -/
theorem dumps_ascii (m : Json) : ∀ x ∈ dumps m, x.toNat < 128 := by
  match m with
  | .null =>
    intro x hx
    have hx2 : x ∈ ['n', 'u', 'l', 'l'] := hx
    fin_cases hx2 <;> decide
  | .bool true =>
    intro x hx
    have hx2 : x ∈ ['t', 'r', 'u', 'e'] := hx
    fin_cases hx2 <;> decide
  | .bool false =>
    intro x hx
    have hx2 : x ∈ ['f', 'a', 'l', 's', 'e'] := hx
    fin_cases hx2 <;> decide
  | .num n =>
    intro x hx
    show x.toNat < 128
    have hx2 : x ∈ intDigits n := hx
    unfold intDigits at hx2
    split_ifs at hx2
    · rcases List.mem_cons.mp hx2 with rfl | h3
      · decide
      · exact natDigits_ascii _ x h3
    · exact natDigits_ascii _ x hx2
  | .str s => exact dumpStr_ascii s
  | .arr xs =>
    intro x hx
    have hx2 : x ∈ '[' :: dumpsArr xs ++ [']'] := hx
    rcases List.mem_cons.mp hx2 with rfl | h3
    · decide
    · rcases List.mem_append.mp h3 with h4 | h4
      · exact dumpsArr_ascii xs x h4
      · rcases List.mem_singleton.mp h4 with rfl
        decide
  | .obj kvs =>
    intro x hx
    have hx2 : x ∈ lcurly :: dumpsObj kvs ++ [rcurly] := hx
    rcases List.mem_cons.mp hx2 with rfl | h3
    · decide
    · rcases List.mem_append.mp h3 with h4 | h4
      · exact dumpsObj_ascii kvs x h4
      · rcases List.mem_singleton.mp h4 with rfl
        decide
termination_by sizeOf m

theorem dumpsArr_ascii (xs : List Json) : ∀ x ∈ dumpsArr xs, x.toNat < 128 := by
  match xs with
  | [] => intro x hx; cases hx
  | [y] => exact dumps_ascii y
  | y :: z :: t =>
    intro x hx
    have hx2 : x ∈ dumps y ++ ',' :: ' ' :: dumpsArr (z :: t) := hx
    rcases List.mem_append.mp hx2 with h3 | h3
    · exact dumps_ascii y x h3
    · rcases List.mem_cons.mp h3 with rfl | h4
      · decide
      · rcases List.mem_cons.mp h4 with rfl | h5
        · decide
        · exact dumpsArr_ascii (z :: t) x h5
termination_by sizeOf xs

theorem dumpsObj_ascii (kvs : List (Str × Json)) : ∀ x ∈ dumpsObj kvs, x.toNat < 128 := by
  match kvs with
  | [] => intro x hx; cases hx
  | [(k, v)] =>
    intro x hx
    have hx2 : x ∈ dumpStr k ++ ':' :: ' ' :: dumps v := hx
    rcases List.mem_append.mp hx2 with h3 | h3
    · exact dumpStr_ascii k x h3
    · rcases List.mem_cons.mp h3 with rfl | h4
      · decide
      · rcases List.mem_cons.mp h4 with rfl | h5
        · decide
        · exact dumps_ascii v x h5
  | (k, v) :: e :: t =>
    intro x hx
    have hx2 : x ∈ dumpStr k ++ ':' :: ' ' :: dumps v ++ ',' :: ' ' :: dumpsObj (e :: t) := hx
    simp only [List.mem_append, List.mem_cons] at hx2
    rcases hx2 with (h | h | h | h) | h | h | h <;>
      first
      | (subst h; decide)
      | exact dumpStr_ascii k x h
      | exact dumps_ascii v x h
      | exact dumpsObj_ascii (e :: t) x h
termination_by sizeOf kvs

end

/-! ## The communication core (`core/worker.py`, `core/sockets.py`,
`core/handler.py`, `core/video.py`) -/

/-- `Worker` protocol constants (`core/worker.py`). -/
def CMD_CONN_NEW : Str := "NEW".data

def CMD_RESTART : Str := "RESTART".data

def CMD_DESTROY : Str := "DESTROY".data

def CMD_DISCONNECT : Str := "DISCONNECT".data

def RESPONSE_OK : Str := "OK".data

def RESPONSE_ACCEPT : Str := "ACCEPT".data

def RESPONSE_RECV : Str := "RECV".data

def DATA_KEY_CMD : Str := "CMD".data

def DATA_KEY_SELF : Str := "SELF".data

def DATA_KEY_CONN : Str := "CONN".data

def PORT_DATA : Nat := 6666

def PORT_CONN : Nat := 6667

def PORT_STATUS : Nat := 6668

/-- Modelled from the spec: `core/encrypt.py` is imported by `core/worker.py`
(`from core.encrypt import Encrypt`) but is absent from the sources.  The spec
treats it as an opaque byte transform — `encrypt(bytes) -> bytes`,
`decrypt(bytes) -> bytes`, independently toggleable for the data channel — so
the transform pair is kept abstract here: `enabled_data` mirrors
`Encrypt.enabled_data`; `decryptFn` returns `Except`, with `error` standing
for a raised exception on bad key or corrupted bytes. -/
structure Encrypt where
  enabled_data : Bool
  encryptFn : Str → List Nat
  decryptFn : List Nat → Except Unit Str

/-- An `Encrypt` object with the data-channel encryption flag disabled. -/
def plainEncrypt : Encrypt := ⟨false, fun _ => [], fun _ => .error ()⟩

/-- `Sockets.encode`: encrypt when the data flag is on, else
`bytes(data, 'UTF-8')`. -/
def Sockets.encode (em : Encrypt) (data : Str) : List Nat :=
  if em.enabled_data then em.encryptFn data else utf8Encode data

/-- `Sockets.decode`: `json_decode(decrypt(data))` when the data flag is on,
else `json_decode(data.decode('utf-8'))`.  `json_decode` itself never raises
(it returns `None` on any exception), but `decrypt` and `.decode('utf-8')`
are called outside of any `try` and their exceptions propagate — modelled as
`Except.error`. -/
def Sockets.decode (em : Encrypt) (data : List Nat) : Except Unit (Option Json) :=
  if em.enabled_data then (em.decryptFn data).map json_decode
  else
    match utf8Decode data with
    | none => .error ()
    | some s => .ok (json_decode s)

/-- Lookup in a decoded JSON object (`msg['key']` on a Python dict whose
pairs are listed in insertion order). -/
def lookupKey : List (Str × Json) → Str → Option Json
  | [], _ => none
  | (k, v) :: t, key => if k = key then some v else lookupKey t key

/-- `msg[key]` when `msg` is a dict, else nothing. -/
def jGet (m : Json) (key : Str) : Option Json :=
  match m with
  | .obj kvs => lookupKey kvs key
  | _ => none

/-- Python `value == 'literal'` for a decoded JSON value: true exactly when
the value is that string. -/
def isStr (cmd : Json) (s : Str) : Bool :=
  match cmd with
  | .str t => decide (t = s)
  | _ => false

/-- `msg[key] == target` on a decoded dict: the key is present and holds the
target string. -/
def keyIs (kvs : List (Str × Json)) (key : Str) (target : Str) : Bool :=
  match lookupKey kvs key with
  | some v => isStr v target
  | none => false

/-- The envelope built by `core/utils.py to_json(data, key)`:
`{'k': key, 'v': data, 't': round(time.time() * 1000)}` with the clock value
passed explicitly. -/
def to_json_env (data : Json) (key : Str) (now : Int) : Json :=
  .obj [("k".data, .str key), ("v".data, data), ("t".data, .num now)]

/-- `core/utils.py to_json`: the JSON text of the envelope. -/
def to_json (data : Json) (key : Str) (now : Int) : Str := dumps (to_json_env data key now)

/-- The envelope built by `Worker.socket_send`:
`{"k": DATA_KEY_CMD, "v": msg, "t": round(time.time() * 1000)}`. -/
def Worker.socket_send_env (msg : Json) (now : Int) : Json :=
  .obj [("k".data, .str DATA_KEY_CMD), ("v".data, msg), ("t".data, .num now)]

/-- The envelope built by `Worker.socket_send_self` (loop socket). -/
def Worker.socket_send_self_env (msg : Json) (now : Int) : Json :=
  .obj [("k".data, .str DATA_KEY_SELF), ("v".data, msg), ("t".data, .num now)]

/-- The discovery response built in `Sockets.thread_connect` on `CONN`/`NEW`:
keys in source order `k`, `v`, `t`, `hostname`. -/
def acceptResponse (now : Int) (hostname : Str) : Json :=
  .obj [("k".data, .str DATA_KEY_CMD), ("v".data, .str RESPONSE_ACCEPT),
    ("t".data, .num now), ("hostname".data, .str hostname)]

/-- The loopback message posted via `send_self` after a successful handshake
in `Sockets.thread_connect`: `{"k": DATA_KEY_SELF, "v": 'RESTART'}` — built
inline, with no `t` field. -/
def selfRestartMsg : Json :=
  .obj [("k".data, .str DATA_KEY_SELF), ("v".data, .str "RESTART".data)]

/-- Outcome of one accepted discovery connection in
`Sockets.thread_connect`. -/
structure ConnOutcome where
  server_ip : Option Str
  response : Option (List Nat)
  selfMsg : Option (List Nat)
deriving DecidableEq

/-- One accepted connection of `Sockets.thread_connect`: receive `data` from
`addr`, decode, and on a well-formed `CONN`/`NEW` envelope record the peer
address, answer with the `ACCEPT` response and post the loopback `RESTART`
self-message.  A decode exception is caught by the surrounding `try` (close
and re-listen): no response, state unchanged.  A decoded non-dict value either
fails the `'k' in msg` test or raises `TypeError` at `msg['k']` inside the
same `try`; both are observably the no-response outcome. -/
def Sockets.thread_connect_step (em : Encrypt) (server_ip : Option Str) (addr : Str)
    (data : List Nat) (now : Int) (hostname : Str) : ConnOutcome :=
  match Sockets.decode em data with
  | .error _ => ⟨server_ip, none, none⟩
  | .ok msg =>
    match msg with
    | some (.obj kvs) =>
      if (lookupKey kvs "k".data).isSome ∧ (lookupKey kvs "v".data).isSome ∧
          keyIs kvs "k".data DATA_KEY_CONN = true then
        if keyIs kvs "v".data CMD_CONN_NEW = true then
          ⟨some addr, some (Sockets.encode em (json_encode (acceptResponse now hostname))),
            some (Sockets.encode em (json_encode selfRestartMsg))⟩
        else ⟨server_ip, none, none⟩
      else ⟨server_ip, none, none⟩
    | _ => ⟨server_ip, none, none⟩

/-- The spec-side shape test: a decoded message is a dict carrying
`k = 'CONN'` and `v = 'NEW'`. -/
def isConnNewMsg (m : Option Json) : Bool :=
  match m with
  | some (.obj kvs) => keyIs kvs "k".data DATA_KEY_CONN && keyIs kvs "v".data CMD_CONN_NEW
  | _ => false

/-- Observable actions of the dispatcher and worker (`Handler.handle_cmd`,
`Handler.handle_self`, `Worker.stop`), in program order. -/
inductive Effect where
  | sendSocket (payload : Str)
  | sendSelf (payload : Str)
  | forwardDevice (cmd : Json)
  | setConnected (b : Bool)
  | setVideoDoRestart
  | setHandlerDoRestart
  | socketsRestart
  | workerStop
  | stopSockets
  | stopVideo
  | stopDevice
  | stopWeb
  | exitProcess (code : Nat)

/-- `Handler.handle_cmd` (`core/handler.py`): the effects of handling one
decoded `CMD` value, in statement order.  `v` may be any decoded JSON value;
the Python `==` comparisons are string comparisons. -/
def Handler.handle_cmd (cmd : Json) (now : Int) : List Effect :=
  if isStr cmd CMD_DISCONNECT then
    [.sendSocket (to_json (.str RESPONSE_OK) DATA_KEY_CMD now), .setConnected false]
  else if isStr cmd CMD_RESTART then
    [.sendSocket (to_json (.str RESPONSE_OK) DATA_KEY_CMD now), .setVideoDoRestart]
  else if isStr cmd CMD_DESTROY then
    [.sendSocket (to_json (.str RESPONSE_OK) DATA_KEY_CMD now), .workerStop, .exitProcess 0]
  else if isStr cmd [] then []
  else
    [.sendSocket (to_json (.str RESPONSE_RECV) DATA_KEY_CMD now), .forwardDevice cmd]

/-- `Handler.handle_self`: loopback (`SELF`) messages; `RESTART` sets the
handler's `do_restart` flag and restarts the sockets in place, anything else
is relayed to the server via `Worker.socket_send`. -/
def Handler.handle_self (cmd : Json) (now : Int) : List Effect :=
  if isStr cmd "RESTART".data then [.setHandlerDoRestart, .socketsRestart]
  else [.sendSocket (json_encode (Worker.socket_send_env cmd now))]

/-- `Handler.handle`: route a decoded message by its `k` key.  For a non-dict
value, Python's `'k' in msg` either evaluates a membership test (strings and
lists) or raises `TypeError`, and a succeeding test is followed by `msg['k']`
raising `TypeError`; a raise propagates to the caller (modelled as `error`).
-/
def Handler.handle : Option Json → Int → Except Unit (List Effect)
  | none, _ => .ok []
  | some m, now =>
    match m with
    | .obj kvs =>
      if (lookupKey kvs "k".data).isSome ∧ (lookupKey kvs "v".data).isSome then
        match lookupKey kvs "k".data, lookupKey kvs "v".data with
        | some kk, some vv =>
          if isStr kk DATA_KEY_CMD then .ok (Handler.handle_cmd vv now)
          else if isStr kk DATA_KEY_SELF then .ok (Handler.handle_self vv now)
          else .ok []
        | _, _ => .ok []
      else .ok []
    | .str s => if 'k' ∈ s ∧ 'v' ∈ s then .error () else .ok []
    | .arr xs =>
      if (xs.any fun e => isStr e "k".data) ∧ (xs.any fun e => isStr e "v".data) then .error ()
      else .ok []
    | _ => .error ()

/-- `Worker.stop` (`core/worker.py`): stop the sockets, the video pipeline,
the active device worker, and the web server when enabled, in that order. -/
def Worker.stop_seq (web : Bool) : List Effect :=
  [.stopSockets, .stopVideo, .stopDevice] ++ (if web then [.stopWeb] else [])

/-- The mutable flags relevant to restart signalling: `Handler.do_restart`
(read by `VideoPublisher.publish`) and the `video.do_restart` attribute
assigned by `handle_cmd`'s `RESTART` branch (read nowhere). -/
structure ClientState where
  handler_do_restart : Bool
  video_do_restart : Bool
  connected : Bool
deriving DecidableEq

def applyEffect (st : ClientState) (e : Effect) : ClientState :=
  match e with
  | .setConnected b => { st with connected := b }
  | .setVideoDoRestart => { st with video_do_restart := true }
  | .setHandlerDoRestart => { st with handler_do_restart := true }
  | _ => st

def runEffects (st : ClientState) (es : List Effect) : ClientState := es.foldl applyEffect st

/-- The head of one `VideoPublisher.publish` loop iteration
(`core/video.py`): if `worker.handler.do_restart` is set, clear it and
restart the sender.  Returns the state and whether a restart was
performed. -/
def VideoPublisher.publish_step (st : ClientState) : ClientState × Bool :=
  if st.handler_do_restart then ({ st with handler_do_restart := false }, true)
  else (st, false)

/-- Socket option flags of `Sockets.__init__`. -/
structure SocketsFlags where
  pull_wait : Bool
  pull_linger : Bool
  push_wait : Bool
  push_linger : Bool
deriving DecidableEq

/-- The values assigned in `Sockets.__init__`: `pull_wait = False`,
`pull_linger = False`, `push_wait = False`, `push_linger = True`. -/
def socketsInit : SocketsFlags := ⟨false, false, false, true⟩

/-- Options set on a zmq socket: `CONFLATE=1` and `LINGER=0`. -/
structure SockOpts where
  conflate : Bool
  linger0 : Bool
deriving DecidableEq

/-- Options applied to the PUSH socket in `thread_data`: `CONFLATE=1` when
`not push_wait`, `LINGER=0` when `push_linger`. -/
def threadDataPushOpts (fl : SocketsFlags) : SockOpts := ⟨!fl.push_wait, fl.push_linger⟩

/-- Options applied to the PULL socket in `thread_data`: `CONFLATE=1` when
`not pull_wait`, `LINGER=0` when `pull_linger`. -/
def threadDataPullOpts (fl : SocketsFlags) : SockOpts := ⟨!fl.pull_wait, fl.pull_linger⟩

/-- Options applied in `restart_push_socket` (same formula as
`thread_data`). -/
def restartPushOpts (fl : SocketsFlags) : SockOpts := ⟨!fl.push_wait, fl.push_linger⟩

/-- Options applied in `restart_pull_socket` (same formula as
`thread_data`). -/
def restartPullOpts (fl : SocketsFlags) : SockOpts := ⟨!fl.pull_wait, fl.pull_linger⟩

/-- A bound zmq endpoint: port, options, bind address and a handle generation
(bumped whenever the socket object is recreated). -/
structure Endpoint where
  port : Nat
  opts : SockOpts
  addr : Str
  gen : Nat
deriving DecidableEq

/-- The endpoint-owning state of a `Sockets` object. -/
structure SocketsState where
  flags : SocketsFlags
  client_ip : Str
  pull : Option Endpoint
  push : Option Endpoint
  nextGen : Nat
deriving DecidableEq

/-- `Sockets.restart_pull_socket`: close the old socket and context, recreate
a PULL socket with the option flags, bind it to `PORT_DATA` on the client
address. -/
def Sockets.restart_pull_socket (st : SocketsState) : SocketsState :=
  { st with
    pull := some ⟨PORT_DATA, restartPullOpts st.flags, st.client_ip, st.nextGen⟩
    nextGen := st.nextGen + 1 }

/-- `Sockets.restart_push_socket`: likewise for the PUSH socket on
`PORT_STATUS`. -/
def Sockets.restart_push_socket (st : SocketsState) : SocketsState :=
  { st with
    push := some ⟨PORT_STATUS, restartPushOpts st.flags, st.client_ip, st.nextGen⟩
    nextGen := st.nextGen + 1 }

/-- `Sockets.restart`: restart the pull socket, then the push socket. -/
def Sockets.restart (st : SocketsState) : SocketsState :=
  Sockets.restart_push_socket (Sockets.restart_pull_socket st)

/-- The externally observable bound state of an endpoint: where it is bound
and with which options (the handle generation is not observable). -/
def observableEndpoint (e : Endpoint) : Nat × SockOpts × Str := (e.port, e.opts, e.addr)

/-- The externally observable bound state of the channel pair. -/
def observable (st : SocketsState) :
    Option (Nat × SockOpts × Str) × Option (Nat × SockOpts × Str) :=
  (st.pull.map observableEndpoint, st.push.map observableEndpoint)

/-- The fields of the `Sockets`/`Worker` objects read by `Sockets.send`'s
guard. -/
structure SendCtx where
  server_ip : Option Str
  push_present : Bool
  push_ctx_present : Bool
  push_ctx_closed : Bool
deriving DecidableEq

/-- The guard of `Sockets.send`: `worker.server_ip is None or push_socket is
None or push_context is None or push_context.closed`. -/
def sendBlocked (c : SendCtx) : Bool :=
  c.server_ip.isNone || !c.push_present || !c.push_ctx_present || c.push_ctx_closed

/-- `Sockets.send`: returns the (unchanged) object state and the list of
transmit attempts made for this call.  When not blocked, exactly one attempt
carrying `encode(msg)` is made; `ok` is its transport outcome — a failure is
logged and slept on, never retried, so the attempt list does not depend on
`ok`, and no field of the object is assigned either way. -/
def Sockets.send (em : Encrypt) (c : SendCtx) (msg : Str) (ok : Bool) :
    SendCtx × List (List Nat) :=
  if sendBlocked c then (c, [])
  else
    match ok with
    | true => (c, [Sockets.encode em msg])
    | false => (c, [Sockets.encode em msg])

/-! ## Claims -/

/-- C4 counterexample: the claim that both endpoints are created with conflate
enabled and linger disabled fails — under the `__init__` flags the PULL
(inbound) socket is created with `CONFLATE=1` but without `LINGER=0`, because
`pull_linger` is `False` and `LINGER` is only set when the flag is true. -/
theorem inbound_linger_claim_false :
    ¬(threadDataPushOpts socketsInit = ⟨true, true⟩ ∧
      threadDataPullOpts socketsInit = ⟨true, true⟩) := by
  decide

/-- C4 (amended): under the `__init__` defaults both endpoints get conflate;
the outbound PUSH socket additionally gets `LINGER=0`, while the inbound PULL
socket leaves linger at the transport default; every rebind
(`restart_push_socket` / `restart_pull_socket`) applies the same options as
the initial bind in `thread_data`. -/
theorem socket_options_on_bind_and_rebind :
    threadDataPushOpts socketsInit = ⟨true, true⟩ ∧
    threadDataPullOpts socketsInit = ⟨true, false⟩ ∧
    (∀ fl, restartPushOpts fl = threadDataPushOpts fl ∧
      restartPullOpts fl = threadDataPullOpts fl) :=
  ⟨rfl, rfl, fun _ => ⟨rfl, rfl⟩⟩

/-- C9: `Sockets.restart` twice with no intervening sends yields the same
externally observable bound state as once; after a restart both endpoints are
closed and recreated, bound to `PORT_DATA`/`PORT_STATUS` on the client
address with the flag-derived options. -/
theorem restart_idempotent_observable (st : SocketsState) :
    observable (Sockets.restart (Sockets.restart st)) = observable (Sockets.restart st) ∧
    observable (Sockets.restart st) =
      (some (PORT_DATA, restartPullOpts st.flags, st.client_ip),
        some (PORT_STATUS, restartPushOpts st.flags, st.client_ip)) :=
  ⟨rfl, rfl⟩

/-- C8: `Sockets.send` is a no-op leaving all state unchanged when the peer
address is unknown, the push socket is absent, its context is absent or its
context is closed; otherwise it makes exactly one transmit attempt, and a
failed attempt is not retried (the attempt list does not depend on the
outcome). -/
theorem send_noop_or_single_attempt (em : Encrypt) (c : SendCtx) (msg : Str) (ok : Bool) :
    (sendBlocked c = true → Sockets.send em c msg ok = (c, [])) ∧
    (sendBlocked c = false →
      Sockets.send em c msg ok = (c, [Sockets.encode em msg])) ∧
    (Sockets.send em c msg ok).1 = c ∧ ((Sockets.send em c msg ok).2).length ≤ 1 := by
  unfold Sockets.send
  by_cases h : sendBlocked c = true
  · rw [if_pos h]
    exact ⟨fun _ => rfl, fun hf => absurd h (by simp [hf]), rfl, by simp⟩
  · rw [if_neg h]
    cases ok <;>
      exact ⟨fun ht => absurd ht h, fun _ => rfl, rfl, by simp⟩

/-- Witness for C8: a concrete blocked call returns no attempt, a concrete
unblocked call returns exactly the encoded message once. -/
theorem send_noop_or_single_attempt_witness :
    Sockets.send plainEncrypt ⟨none, true, true, false⟩ "a".data true =
      (⟨none, true, true, false⟩, []) ∧
    Sockets.send plainEncrypt ⟨some "1".data, true, true, false⟩ "a".data false =
      (⟨some "1".data, true, true, false⟩, [utf8Encode "a".data]) :=
  ⟨(send_noop_or_single_attempt plainEncrypt ⟨none, true, true, false⟩ "a".data true).1 rfl,
    (send_noop_or_single_attempt plainEncrypt ⟨some "1".data, true, true, false⟩
      "a".data false).2.1 rfl⟩

/-- C5: a non-empty, non-reserved command string is acknowledged with exactly
one `RECV` and forwarded to the device exactly once; the empty command
produces no acknowledgment and no forward. -/
theorem nonreserved_cmd_ack_and_forward (s : Str) (now : Int) (h0 : s ≠ [])
    (h1 : s ≠ CMD_DISCONNECT) (h2 : s ≠ CMD_RESTART) (h3 : s ≠ CMD_DESTROY) :
    Handler.handle_cmd (.str s) now =
      [.sendSocket (to_json (.str RESPONSE_RECV) DATA_KEY_CMD now), .forwardDevice (.str s)] ∧
    Handler.handle_cmd (.str []) now = [] := by
  constructor
  · unfold Handler.handle_cmd
    rw [if_neg (by simp [isStr, h1]), if_neg (by simp [isStr, h2]),
      if_neg (by simp [isStr, h3]), if_neg (by simp [isStr, h0])]
  · rfl

/-- Witness for C5 at the concrete command string `"A1"`. -/
theorem nonreserved_cmd_ack_and_forward_witness :
    Handler.handle_cmd (.str "A1".data) 7 =
      [.sendSocket (to_json (.str RESPONSE_RECV) DATA_KEY_CMD 7),
        .forwardDevice (.str "A1".data)] ∧
    Handler.handle_cmd (.str []) 7 = [] :=
  nonreserved_cmd_ack_and_forward "A1".data 7 (by decide) (by decide) (by decide) (by decide)

/-- C3 counterexample: the loopback self-message posted after a successful
discovery handshake is sent (its encoded bytes are pushed to the loop socket
by `thread_connect`), yet its envelope carries no `t` field — refuting the
claim that every envelope the client sends carries a timestamp. -/
theorem self_restart_envelope_lacks_timestamp :
    (Sockets.thread_connect_step plainEncrypt none "9.9.9.9".data
      (utf8Encode (json_encode (.obj [("k".data, .str DATA_KEY_CONN),
        ("v".data, .str CMD_CONN_NEW)]))) 5 "host".data).selfMsg =
      some (utf8Encode (json_encode selfRestartMsg)) ∧
    jGet selfRestartMsg "t".data = none :=
  ⟨rfl, rfl⟩

/-- C3 (amended): every envelope built through `to_json`,
`Worker.socket_send`, `Worker.socket_send_self` or the discovery `ACCEPT`
response carries `t` equal to the clock value at encode time; the one
exception is the loopback `SELF`/`RESTART` message of `thread_connect`, which
carries no `t` field. -/
theorem envelope_timestamps (d : Json) (key : Str) (v : Json) (now : Int) (host : Str) :
    jGet (to_json_env d key now) "t".data = some (.num now) ∧
    jGet (Worker.socket_send_env v now) "t".data = some (.num now) ∧
    jGet (Worker.socket_send_self_env v now) "t".data = some (.num now) ∧
    jGet (acceptResponse now host) "t".data = some (.num now) ∧
    jGet selfRestartMsg "t".data = none :=
  ⟨rfl, rfl, rfl, rfl, rfl⟩

/-- C7: the `RESTART` command branch sends `OK` and assigns
`worker.video.do_restart`, an attribute nothing reads — the publish loop of
`VideoPublisher` consumes `worker.handler.do_restart`, which stays `false`,
so no pipeline restart is triggered; the flag the publish loop does consume
is only set by the loopback (`SELF`) `RESTART` handling. -/
theorem restart_cmd_sets_unread_flag (now : Int) :
    Handler.handle_cmd (.str CMD_RESTART) now =
      [.sendSocket (to_json (.str RESPONSE_OK) DATA_KEY_CMD now), .setVideoDoRestart] ∧
    (runEffects ⟨false, false, false⟩
      (Handler.handle_cmd (.str CMD_RESTART) now)).video_do_restart = true ∧
    (runEffects ⟨false, false, false⟩
      (Handler.handle_cmd (.str CMD_RESTART) now)).handler_do_restart = false ∧
    (VideoPublisher.publish_step (runEffects ⟨false, false, false⟩
      (Handler.handle_cmd (.str CMD_RESTART) now))).2 = false ∧
    (runEffects ⟨false, false, false⟩
      (Handler.handle_self (.str "RESTART".data) now)).handler_do_restart = true :=
  ⟨rfl, rfl, rfl, rfl, rfl⟩

/-- C2 counterexample: with the data-channel encryption flag disabled,
`Sockets.decode` on the byte `0xff` raises (`data.decode('utf-8')` throws
`UnicodeDecodeError` outside any `try`) instead of returning `None` —
refuting the claim that decode never raises for any input byte sequence. -/
theorem decode_raises_on_invalid_utf8 :
    Sockets.decode plainEncrypt [255] = .error () := rfl

/-- C2 (amended): `json_decode` itself never raises — it returns `None` on
malformed structured data — and `Sockets.decode` returns without raising
whenever the raw bytes are valid UTF-8 (encryption disabled); only a failing
byte-level decode (or a raising decrypt transform) escapes to the caller. -/
theorem decode_total_on_valid_utf8 (em : Encrypt) (h : em.enabled_data = false)
    (data : List Nat) (s : Str) (hu : utf8Decode data = some s) :
    Sockets.decode em data = .ok (json_decode s) := by
  unfold Sockets.decode
  rw [if_neg (by simp [h]), hu]

/-- Witness for C2 (amended): the bytes of `"null"` decode without raising,
to the parsed value. -/
theorem decode_total_on_valid_utf8_witness :
    utf8Decode [110, 117, 108, 108] = some "null".data ∧
    Sockets.decode plainEncrypt [110, 117, 108, 108] = .ok (json_decode "null".data) :=
  ⟨rfl, decode_total_on_valid_utf8 plainEncrypt rfl [110, 117, 108, 108] "null".data rfl⟩

/-- C10: with data-channel encryption disabled the codec round-trips — for
every well-formed message `m` (objects carry distinct keys, as Python dicts
do), decoding the encoded bytes of the JSON serialization of `m` yields `m`
again. -/
theorem codec_round_trip (em : Encrypt) (h : em.enabled_data = false) (m : Json)
    (hw : jwf m = true) :
    Sockets.decode em (Sockets.encode em (json_encode m)) = .ok (some m) := by
  unfold Sockets.encode Sockets.decode
  rw [if_neg (by simp [h]), if_neg (by simp [h])]
  rw [show json_encode m = dumps m from rfl]
  rw [utf8Decode_encode_ascii (dumps m) (dumps_ascii m)]
  show Except.ok (json_decode (dumps m)) = Except.ok (some m)
  rw [show json_decode (dumps m) = jsonLoads (dumps m) from rfl, jsonLoads_dumps m hw]

/-- Witness for C10 at a concrete command envelope. -/
theorem codec_round_trip_witness :
    plainEncrypt.enabled_data = false ∧
    jwf (to_json_env (.str RESPONSE_OK) DATA_KEY_CMD 123) = true ∧
    Sockets.decode plainEncrypt
        (Sockets.encode plainEncrypt (json_encode (to_json_env (.str RESPONSE_OK)
          DATA_KEY_CMD 123))) =
      .ok (some (to_json_env (.str RESPONSE_OK) DATA_KEY_CMD 123)) :=
  ⟨rfl, by decide,
    codec_round_trip plainEncrypt rfl (to_json_env (.str RESPONSE_OK) DATA_KEY_CMD 123)
      (by decide)⟩

/-- C1: for an accepted discovery connection, if the received buffer decodes
to an envelope with `k = 'CONN'` and `v = 'NEW'` the client records the
source address as the server address and answers with exactly the encoded
`{'k': 'CMD', 'v': 'ACCEPT', 't': now, 'hostname': host}` envelope (also
posting the loopback self-message); for any other decoded payload, and for a
payload whose decode raises, no response is sent and the recorded address is
unchanged. -/
theorem keyIs_isSome {kvs : List (Str × Json)} {key target : Str}
    (h : keyIs kvs key target = true) : (lookupKey kvs key).isSome = true := by
  unfold keyIs at h
  match hk : lookupKey kvs key with
  | some _ => rfl
  | none => rw [hk] at h; cases h

theorem thread_connect_discovery (em : Encrypt) (oldIp : Option Str) (addr : Str)
    (data : List Nat) (now : Int) (host : Str) :
    (∀ msg, Sockets.decode em data = .ok msg → isConnNewMsg msg = true →
      Sockets.thread_connect_step em oldIp addr data now host =
        ⟨some addr, some (Sockets.encode em (json_encode (acceptResponse now host))),
          some (Sockets.encode em (json_encode selfRestartMsg))⟩) ∧
    (∀ msg, Sockets.decode em data = .ok msg → isConnNewMsg msg = false →
      Sockets.thread_connect_step em oldIp addr data now host = ⟨oldIp, none, none⟩) ∧
    (Sockets.decode em data = .error () →
      Sockets.thread_connect_step em oldIp addr data now host = ⟨oldIp, none, none⟩) := by
  refine ⟨?_, ?_, ?_⟩
  · intro msg hdec hcn
    unfold Sockets.thread_connect_step
    rw [hdec]
    match msg, hcn with
    | some (.obj kvs), hcn =>
      simp only [isConnNewMsg, Bool.and_eq_true] at hcn
      show (if (lookupKey kvs "k".data).isSome = true ∧ (lookupKey kvs "v".data).isSome = true ∧
          keyIs kvs "k".data DATA_KEY_CONN = true then
          (if keyIs kvs "v".data CMD_CONN_NEW = true then
            ConnOutcome.mk (some addr)
              (some (Sockets.encode em (json_encode (acceptResponse now host))))
              (some (Sockets.encode em (json_encode selfRestartMsg)))
          else ⟨oldIp, none, none⟩)
        else ⟨oldIp, none, none⟩) = _
      rw [if_pos ⟨keyIs_isSome hcn.1, keyIs_isSome hcn.2, hcn.1⟩, if_pos hcn.2]
  · intro msg hdec hcn
    unfold Sockets.thread_connect_step
    rw [hdec]
    match msg, hcn with
    | none, _ => rfl
    | some .null, _ => rfl
    | some (.bool b), _ => rfl
    | some (.num n), _ => rfl
    | some (.str s), _ => rfl
    | some (.arr xs), _ => rfl
    | some (.obj kvs), hcn =>
      simp only [isConnNewMsg, Bool.and_eq_false_iff] at hcn
      show (if (lookupKey kvs "k".data).isSome = true ∧ (lookupKey kvs "v".data).isSome = true ∧
          keyIs kvs "k".data DATA_KEY_CONN = true then
          (if keyIs kvs "v".data CMD_CONN_NEW = true then
            ConnOutcome.mk (some addr)
              (some (Sockets.encode em (json_encode (acceptResponse now host))))
              (some (Sockets.encode em (json_encode selfRestartMsg)))
          else ⟨oldIp, none, none⟩)
        else ⟨oldIp, none, none⟩) = _
      rcases hcn with hcn | hcn
      · rw [if_neg (by simp [hcn])]
      · by_cases houter : (lookupKey kvs "k".data).isSome = true ∧
            (lookupKey kvs "v".data).isSome = true ∧ keyIs kvs "k".data DATA_KEY_CONN = true
        · rw [if_pos houter, if_neg (by simp [hcn])]
        · rw [if_neg houter]
  · intro hdec
    unfold Sockets.thread_connect_step
    rw [hdec]

/-- Witness for C1: a concrete `CONN`/`NEW` request from `10.0.0.2` is
answered with the exact `ACCEPT` envelope and the peer address is recorded;
a concrete garbage payload gets no response. -/
theorem thread_connect_discovery_witness :
    Sockets.thread_connect_step plainEncrypt none "10.0.0.2".data
        (utf8Encode "\x7b\x22k\x22: \x22CONN\x22, \x22v\x22: \x22NEW\x22\x7d".data) 42
        "cam1".data =
      ⟨some "10.0.0.2".data,
        some (Sockets.encode plainEncrypt (json_encode (acceptResponse 42 "cam1".data))),
        some (Sockets.encode plainEncrypt (json_encode selfRestartMsg))⟩ ∧
    Sockets.thread_connect_step plainEncrypt none "10.0.0.2".data
        (utf8Encode "hello".data) 42 "cam1".data = ⟨none, none, none⟩ :=
  ⟨(thread_connect_discovery plainEncrypt none "10.0.0.2".data _ 42 "cam1".data).1
      _ rfl rfl,
    (thread_connect_discovery plainEncrypt none "10.0.0.2".data _ 42 "cam1".data).2.1
      _ rfl rfl⟩

/-- C6: handling `DESTROY` first sends the `OK` acknowledgment, then runs the
worker shutdown (which stops the channels, the video pipeline and the device
worker, in order), then exits the process with success status, the exit being
the final action; no other command value, and no loopback message, produces a
process exit. -/
theorem destroy_only_termination (now : Int) :
    Handler.handle_cmd (.str CMD_DESTROY) now =
      [.sendSocket (to_json (.str RESPONSE_OK) DATA_KEY_CMD now), .workerStop,
        .exitProcess 0] ∧
    Worker.stop_seq false = [.stopSockets, .stopVideo, .stopDevice] ∧
    (∀ cmd now2, .exitProcess 0 ∈ Handler.handle_cmd cmd now2 ↔ cmd = .str CMD_DESTROY) ∧
    (∀ cmd now2 code, Effect.exitProcess code ∉ Handler.handle_self cmd now2) := by
  refine ⟨rfl, rfl, ?_, ?_⟩
  · intro cmd now2
    constructor
    · intro hmem
      unfold Handler.handle_cmd at hmem
      split_ifs at hmem with h1 h2 h3 h4
      · simp at hmem
      · simp at hmem
      · unfold isStr at h3
        match cmd, h3 with
        | .str t, h3 =>
          simp only [decide_eq_true_eq] at h3
          rw [h3]
      · simp at hmem
      · simp at hmem
    · intro hcmd
      subst hcmd
      rw [show Handler.handle_cmd (.str CMD_DESTROY) now2 =
        [.sendSocket (to_json (.str RESPONSE_OK) DATA_KEY_CMD now2), .workerStop,
          .exitProcess 0] from rfl]
      simp
  · intro cmd now2 code
    unfold Handler.handle_self
    split_ifs
    · simp
    · simp
